import Mathlib

/-!
Verification development for the structured-extraction pipeline in
`solution.py` (class `StructuredExtractor`).  The Python source is embedded
shallowly: JSON values become an inductive type, `dict`s become association
lists with Python insert/update semantics, `datetime` values become explicit
calendar triples plus seconds-of-day, and the external model call becomes an
oracle function.  Stateless library collaborators (`json.loads`,
`datetime.fromisoformat`, the two `re` patterns) are modelled as executable
Lean functions faithful to their documented behaviour on the inputs this
program can produce; simplifications (ASCII-only character classes, no
surrogate-pair combining, no NaN/Infinity literals, numeric values kept as
mantissa/exponent pairs) are noted at each definition.
-/

set_option maxHeartbeats 1000000

/-- JSON values as produced by `json.loads`.  Numbers are kept as a
mantissa/exponent pair `m * 10 ^ e`; the int/float distinction of Python is
dropped because no code path in the program inspects it. -/
inductive Json where
  | null
  | bool (b : Bool)
  | num (m : Int) (e : Int)
  | str (s : String)
  | arr (elems : List Json)
  | obj (members : List (String × Json))

/-- ASCII whitespace characters recognised by Python's regex class and by
`str.strip` (the Unicode extras never occur in this program's data). -/
def isSpaceChar (c : Char) : Bool :=
  c = ' ' || c = '\t' || c = '\n' || c = '\r' || c = '\x0b' || c = '\x0c'

def isDigitChar (c : Char) : Bool :=
  '0' ≤ c && c ≤ '9'

/-- ASCII word characters, modelling the regex class backslash-w. -/
def isWordChar (c : Char) : Bool :=
  c.isAlpha || isDigitChar c || c = '_'

def charDigit (c : Char) : Option Nat :=
  if isDigitChar c then some (c.toNat - 48) else none

def natOfDigits (ds : List Char) : Nat :=
  ds.foldl (fun a c => a * 10 + (c.toNat - 48)) 0

/-- Does `pat` occur at the head of `hay`? -/
def startsWithL : List Char → List Char → Bool
  | [], _ => true
  | _ :: _, [] => false
  | a :: as, b :: bs => a = b && startsWithL as bs

/-- Does `pat` occur anywhere in `hay`?  Models the Python substring test
`pat in hay`. -/
def containsL (pat : List Char) : List Char → Bool
  | [] => pat.isEmpty
  | hay@(_ :: rest) => startsWithL pat hay || containsL pat rest

def strContains (hay pat : String) : Bool :=
  containsL pat.data hay.data

/-- Models Python `str.lower` (ASCII range; the keyword tables and patterns
are all ASCII). -/
def pyLower (s : String) : String :=
  String.mk (s.data.map Char.toLower)

def dropSpacesL (cs : List Char) : List Char :=
  cs.dropWhile isSpaceChar

/-- Models Python `str.strip`. -/
def pyStrip (s : String) : String :=
  String.mk ((dropSpacesL (dropSpacesL s.data.reverse).reverse))

/-- Models Python string slicing `s[:n]`. -/
def pyTake (n : Nat) (s : String) : String :=
  String.mk (s.data.take n)

/-! ### The JSON parser (model of `json.loads`)

Strict JSON grammar as accepted by `json.loads` with default arguments,
except: the non-standard `NaN`/`Infinity` literals are omitted, and a
`\uXXXX` escape denotes the code point directly (no surrogate-pair
combining).  Python `dict` construction keeps the first position of a
repeated key and overwrites its value; `dictInsert` reproduces that. -/

/-- Python dict item assignment `d[k] = v`: update in place if the key is
present, append otherwise. -/
def dictInsert : List (String × Json) → String → Json → List (String × Json)
  | [], key, v => [(key, v)]
  | (k, w) :: rest, key, v =>
    if k = key then (k, v) :: rest else (k, w) :: dictInsert rest key v

/-- JSON whitespace (space, tab, newline, carriage return). -/
def jws (cs : List Char) : List Char :=
  cs.dropWhile (fun c => c = ' ' || c = '\t' || c = '\n' || c = '\r')

def escChar (c : Char) : Option Char :=
  if c = '"' then some '"'
  else if c = '\\' then some '\\'
  else if c = '/' then some '/'
  else if c = 'b' then some '\x08'
  else if c = 'f' then some '\x0c'
  else if c = 'n' then some '\n'
  else if c = 'r' then some '\r'
  else if c = 't' then some '\t'
  else none

def hexVal (c : Char) : Option Nat :=
  if isDigitChar c then some (c.toNat - 48)
  else if 'a' ≤ c && c ≤ 'f' then some (c.toNat - 87)
  else if 'A' ≤ c && c ≤ 'F' then some (c.toNat - 55)
  else none

/-- Body of a JSON string after the opening quote. -/
def parseJStrAux : List Char → List Char → Option (String × List Char)
  | '"' :: rest, acc => some (String.mk acc.reverse, rest)
  | '\\' :: 'u' :: h1 :: h2 :: h3 :: h4 :: rest, acc =>
    match hexVal h1, hexVal h2, hexVal h3, hexVal h4 with
    | some a, some b, some c, some d =>
      parseJStrAux rest (Char.ofNat (((a * 16 + b) * 16 + c) * 16 + d) :: acc)
    | _, _, _, _ => none
  | '\\' :: c :: rest, acc =>
    match escChar c with
    | some c' => parseJStrAux rest (c' :: acc)
    | none => none
  | c :: rest, acc =>
    if c.toNat < 32 then none else parseJStrAux rest (c :: acc)
  | [], _ => none

def parseJStr (cs : List Char) : Option (String × List Char) :=
  parseJStrAux cs []

def takeDigitsL (cs : List Char) : List Char × List Char :=
  (cs.takeWhile isDigitChar, cs.dropWhile isDigitChar)

/-- JSON number grammar: optional minus, integer part with no leading zeros,
optional fraction, optional exponent.  Returns mantissa and power of ten. -/
def parseJNum (cs : List Char) : Option ((Int × Int) × List Char) :=
  let (neg, cs1) := match cs with
    | '-' :: r => (true, r)
    | _ => (false, cs)
  let intPart : Option (Nat × List Char) := match cs1 with
    | '0' :: r => some (0, r)
    | c :: _ =>
      if isDigitChar c && c ≠ '0' then
        let (ds, r) := takeDigitsL cs1
        some (natOfDigits ds, r)
      else none
    | [] => none
  match intPart with
  | none => none
  | some (iv, r2) =>
    let (m1, e1, r3) : Int × Int × List Char := match r2 with
      | '.' :: rf =>
        let (ds, rr) := takeDigitsL rf
        if ds.isEmpty then ((iv : Int), 0, r2)
        else ((iv : Int) * (10 : Int) ^ ds.length + natOfDigits ds,
              -(ds.length : Int), rr)
      | _ => ((iv : Int), 0, r2)
    let (e2, r4) : Int × List Char := match r3 with
      | 'e' :: re | 'E' :: re =>
        let (esign, re2) : Int × List Char := match re with
          | '+' :: rr => (1, rr)
          | '-' :: rr => (-1, rr)
          | _ => (1, re)
        let (ds, rr) := takeDigitsL re2
        if ds.isEmpty then (0, r3) else (esign * natOfDigits ds, rr)
      | _ => (0, r3)
    -- a fraction or exponent that failed to scan leaves its lead character
    -- in place, which makes the caller reject the input, exactly as the
    -- strict json grammar does
    some (((if neg then -m1 else m1), e1 + e2), r4)

mutual

def parseJValue : Nat → List Char → Option (Json × List Char)
  | 0, _ => none
  | fuel + 1, cs =>
    if startsWithL ['n', 'u', 'l', 'l'] (jws cs) then some (.null, (jws cs).drop 4)
    else if startsWithL ['t', 'r', 'u', 'e'] (jws cs) then some (.bool true, (jws cs).drop 4)
    else if startsWithL ['f', 'a', 'l', 's', 'e'] (jws cs) then some (.bool false, (jws cs).drop 5)
    else
      match jws cs with
      | '"' :: rest => (parseJStr rest).map (fun p => (.str p.1, p.2))
      | '{' :: rest =>
        (match jws rest with
         | '}' :: r2 => some (.obj [], r2)
         | r2 => parseJMembers fuel r2 [])
      | '[' :: rest =>
        (match jws rest with
         | ']' :: r2 => some (.arr [], r2)
         | r2 => parseJElems fuel r2 [])
      | rest => (parseJNum rest).map (fun p => (.num p.1.1 p.1.2, p.2))

def parseJMembers : Nat → List Char → List (String × Json) → Option (Json × List Char)
  | 0, _, _ => none
  | fuel + 1, cs, acc =>
    match cs with
    | '"' :: rest =>
      (match parseJStr rest with
       | some (k, r1) =>
         (match jws r1 with
          | ':' :: r2 =>
            (match parseJValue fuel r2 with
             | some (v, r3) =>
               let acc' := dictInsert acc k v
               (match jws r3 with
                | ',' :: r4 => parseJMembers fuel (jws r4) acc'
                | '}' :: r4 => some (.obj acc', r4)
                | _ => none)
             | none => none)
          | _ => none)
       | none => none)
    | _ => none

def parseJElems : Nat → List Char → List Json → Option (Json × List Char)
  | 0, _, _ => none
  | fuel + 1, cs, acc =>
    match parseJValue fuel cs with
    | some (v, r1) =>
      (match jws r1 with
       | ',' :: r2 => parseJElems fuel r2 (acc ++ [v])
       | ']' :: r2 => some (.arr (acc ++ [v]), r2)
       | _ => none)
    | none => none

end

/-- Model of `json.loads`: parse one JSON value, then require only
whitespace to follow.  The fuel bound dominates the nesting depth of any
string of the given length. -/
def loads (s : String) : Option Json :=
  match parseJValue (2 * s.length + 4) s.data with
  | some (j, rest) => if (jws rest).isEmpty then some j else none
  | none => none

/-! ### Calendar model

`datetime` values are embedded as a year/month/day triple plus seconds after
midnight (microseconds are dropped; nothing in the program produces them).
Python restricts years to 1..9999 and raises `OverflowError` when an
arithmetic result leaves that range; `pythonAddDays` reproduces that as an
`Except` error. -/

structure PyDate where
  year : Nat
  month : Nat
  day : Nat
deriving DecidableEq

structure PyDateTime where
  date : PyDate
  sod : Nat
deriving DecidableEq

def isLeap (y : Nat) : Bool :=
  (y % 4 = 0 && y % 100 ≠ 0) || y % 400 = 0

/-- Model of `calendar.monthrange(y, m).1` for months 1..12. -/
def daysInMonth (y m : Nat) : Nat :=
  if m = 2 then (if isLeap y then 29 else 28)
  else if m = 4 ∨ m = 6 ∨ m = 9 ∨ m = 11 then 30
  else 31

def validDate (d : PyDate) : Prop :=
  1 ≤ d.year ∧ 1 ≤ d.month ∧ d.month ≤ 12 ∧ 1 ≤ d.day ∧ d.day ≤ daysInMonth d.year d.month

instance (d : PyDate) : Decidable (validDate d) := by
  unfold validDate; infer_instance

def validNow (t : PyDateTime) : Prop :=
  validDate t.date ∧ t.date.year ≤ 9999 ∧ t.sod < 86400

instance (t : PyDateTime) : Decidable (validNow t) := by
  unfold validNow; infer_instance

/-- The calendar successor of a date. -/
def nextDay (d : PyDate) : PyDate :=
  if d.day < daysInMonth d.year d.month then ⟨d.year, d.month, d.day + 1⟩
  else if d.month < 12 then ⟨d.year, d.month + 1, 1⟩
  else ⟨d.year + 1, 1, 1⟩

/-- Adding `n` calendar days, in the unbounded proleptic Gregorian calendar. -/
def addDaysD (d : PyDate) : Nat → PyDate
  | 0 => d
  | n + 1 => addDaysD (nextDay d) n

/-- `datetime.now() + timedelta(days=n)`: total in the calendar model, but
Python raises `OverflowError` past year 9999, modelled as an error. -/
def pythonAddDays (t : PyDateTime) (n : Nat) : Except String PyDate :=
  if (addDaysD t.date n).year ≤ 9999 then .ok (addDaysD t.date n)
  else .error "date value out of range"

/-- Day count of a date from the fixed epoch 0000-03-01, used only to take
differences between two datetimes (the standard civil-calendar formula). -/
def daysFromCivil (d : PyDate) : Nat :=
  let y := if d.month ≤ 2 then d.year - 1 else d.year
  let era := y / 400
  let yoe := y % 400
  let mp := if d.month > 2 then d.month - 3 else d.month + 9
  let doy := (153 * mp + 2) / 5 + (d.day - 1)
  let doe := yoe * 365 + yoe / 4 - yoe / 100 + doy
  era * 146097 + doe

def pySeconds (t : PyDateTime) : Int :=
  (daysFromCivil t.date : Int) * 86400 + (t.sod : Int)

/-- `(deadline_datetime - datetime.now()).days`: `timedelta` normalises with
`0 <= seconds < 86400`, so `.days` is the floor of the difference in days. -/
def daysUntil (deadline now : PyDateTime) : Int :=
  (pySeconds deadline - pySeconds now).fdiv 86400

/-- Unpadded decimal rendering of a year, as glibc `%Y` and an f-string
`{year}` both produce; exact for the whole Python year range 1..9999. -/
def renderYear (y : Nat) : String :=
  if y < 10 then String.mk [Nat.digitChar y]
  else if y < 100 then String.mk [Nat.digitChar (y / 10), Nat.digitChar (y % 10)]
  else if y < 1000 then
    String.mk [Nat.digitChar (y / 100), Nat.digitChar (y / 10 % 10), Nat.digitChar (y % 10)]
  else
    String.mk [Nat.digitChar (y / 1000), Nat.digitChar (y / 100 % 10),
               Nat.digitChar (y / 10 % 10), Nat.digitChar (y % 10)]

/-- Two-digit zero-padded rendering (`%m`, `%d`, `{n:02d}` for n < 100). -/
def pad2 (n : Nat) : String :=
  String.mk [Nat.digitChar (n / 10), Nat.digitChar (n % 10)]

/-- `strftime("%Y-%m-%d")`, which is also the f-string
`f"{year}-{month:02d}-{day:02d}"` used in the month-end branch. -/
def renderDate (d : PyDate) : String :=
  renderYear d.year ++ "-" ++ pad2 d.month ++ "-" ++ pad2 d.day

def digit2 (a b : Char) : Option Nat :=
  match charDigit a, charDigit b with
  | some x, some y => some (x * 10 + y)
  | _, _ => none

/-- Optional time-of-day part of `datetime.fromisoformat` input, to seconds
precision (`HH:MM` or `HH:MM:SS`; fractional seconds and UTC offsets are
omitted from the model, the program never produces them). -/
def parseTimePart : List Char → Option Nat
  | [h1, h2, ':', m1, m2] => do
    let hh ← digit2 h1 h2
    let mm ← digit2 m1 m2
    if hh < 24 ∧ mm < 60 then return hh * 3600 + mm * 60 else none
  | [h1, h2, ':', m1, m2, ':', s1, s2] => do
    let hh ← digit2 h1 h2
    let mm ← digit2 m1 m2
    let ss ← digit2 s1 s2
    if hh < 24 ∧ mm < 60 ∧ ss < 60 then return hh * 3600 + mm * 60 + ss else none
  | _ => none

/-- Model of `datetime.fromisoformat` (the Python 3.10 grammar): a four-digit
year, `-`, two-digit month, `-`, two-digit day, optionally followed by any
single separator character and a time part; the date must be a real calendar
date. -/
def isoParse (s : String) : Option PyDateTime :=
  match s.data with
  | y1 :: y2 :: y3 :: y4 :: '-' :: mo1 :: mo2 :: '-' :: d1 :: d2 :: rest =>
    match digit2 y1 y2, digit2 y3 y4, digit2 mo1 mo2, digit2 d1 d2 with
    | some yh, some yl, some mo, some dd =>
      if validDate ⟨yh * 100 + yl, mo, dd⟩ then
        match rest with
        | [] => some ⟨⟨yh * 100 + yl, mo, dd⟩, 0⟩
        | _ :: t1 => (parseTimePart t1).map (fun sod => ⟨⟨yh * 100 + yl, mo, dd⟩, sod⟩)
      else none
    | _, _, _, _ => none
  | _ => none

/-! ### Urgency inference (`_infer_urgency`, lines 161-185)

`URGENCY_KEYWORDS` is a dict with insertion order high, medium, low, so the
`for urgency_level, keywords in ...items()` loop checks the levels in that
fixed order.  The `deadline` argument is whatever JSON value sits under the
`deadline` key; `if deadline:` is a truthiness test and
`datetime.fromisoformat` raises `TypeError` on a non-string, which the code
catches and turns into the final `return "low"`. -/

def highKeywords : List String :=
  ["urgent", "urgently", "asap", "immediately", "today", "tomorrow", "critical", "emergency"]

def mediumKeywords : List String :=
  ["soon", "needed", "required", "priority"]

def lowKeywords : List String :=
  ["eventually", "when possible"]

def matchesAny (textLower : String) (kws : List String) : Bool :=
  kws.any (fun k => strContains textLower k)

/-- Python truthiness of a JSON value. -/
def truthy : Json → Bool
  | .null => false
  | .bool b => b
  | .num m _ => m != 0
  | .str s => s != ""
  | .arr l => !l.isEmpty
  | .obj l => !l.isEmpty

def inferUrgency (text : String) (deadline : Json) (now : PyDateTime) : String :=
  let tl := pyLower text
  if matchesAny tl highKeywords then "high"
  else if matchesAny tl mediumKeywords then "medium"
  else if matchesAny tl lowKeywords then "low"
  else if truthy deadline then
    match deadline with
    | .str s =>
      match isoParse s with
      | some dl =>
        let du := daysUntil dl now
        if du < 7 then "high" else if du < 30 then "medium" else "low"
      | none => "low"
    | _ => "low"
  else "low"

/-! ### Relative date parsing (`_parse_relative_date`, lines 187-218)

The two `re.search` patterns are deterministic once spelled out: every
quantifier in `in\s+(\d+)\s+days?` and `by\s+(\w+)\s+end` is followed by a
token outside its own character class, so greedy matching never backtracks
and `re.search` semantics reduce to scanning start positions left to right
and taking maximal runs. -/

/-- Require at least one whitespace character, then skip the rest of the run
(the pattern piece backslash-s-plus followed by a non-space token). -/
def dropSpaces1 (cs : List Char) : Option (List Char) :=
  match cs with
  | c :: rest => if isSpaceChar c then some (dropSpacesL rest) else none
  | [] => none

def matchLit : List Char → List Char → Option (List Char)
  | [], cs => some cs
  | _ :: _, [] => none
  | p :: ps, c :: cs => if p = c then matchLit ps cs else none

/-- Attempt the days pattern at one start position, returning the digit
group. -/
def daysMatchAt (cs : List Char) : Option Nat := do
  let r1 ← matchLit ['i', 'n'] cs
  let r2 ← dropSpaces1 r1
  let (ds, r3) := takeDigitsL r2
  if ds.isEmpty then none
  else do
    let r4 ← dropSpaces1 r3
    let _ ← matchLit ['d', 'a', 'y'] r4
    -- the optional trailing s constrains nothing after it
    return natOfDigits ds

/-- Leftmost match of `in\s+(\d+)\s+days?`, as `re.search` finds it. -/
def findDaysMatch : List Char → Option Nat
  | [] => none
  | cs@(_ :: rest) =>
    match daysMatchAt cs with
    | some n => some n
    | none => findDaysMatch rest

/-- Attempt the month-end pattern at one start position, returning the word
group. -/
def monthEndMatchAt (cs : List Char) : Option String := do
  let r1 ← matchLit ['b', 'y'] cs
  let r2 ← dropSpaces1 r1
  let w := r2.takeWhile isWordChar
  let r3 := r2.dropWhile isWordChar
  if w.isEmpty then none
  else do
    let r4 ← dropSpaces1 r3
    let _ ← matchLit ['e', 'n', 'd'] r4
    return String.mk w

/-- Leftmost match of `by\s+(\w+)\s+end`. -/
def findMonthEndMatch : List Char → Option String
  | [] => none
  | cs@(_ :: rest) =>
    match monthEndMatchAt cs with
    | some w => some w
    | none => findMonthEndMatch rest

def monthMap (w : String) : Option Nat :=
  if w = "january" then some 1
  else if w = "february" then some 2
  else if w = "march" then some 3
  else if w = "april" then some 4
  else if w = "may" then some 5
  else if w = "june" then some 6
  else if w = "july" then some 7
  else if w = "august" then some 8
  else if w = "september" then some 9
  else if w = "october" then some 10
  else if w = "november" then some 11
  else if w = "december" then some 12
  else none

/-- Model of `_parse_relative_date`.  `Except` carries the uncaught
`OverflowError` that `datetime.now() + timedelta(days=n)` raises when the
result passes year 9999; `.ok none` is the Python `return None`. -/
def parseRelativeDate (text : String) (now : PyDateTime) : Except String (Option String) :=
  match findDaysMatch (pyLower text).data with
  | some n => (pythonAddDays now n).map (fun d => some (renderDate d))
  | none =>
    match findMonthEndMatch (pyLower text).data with
    | some w =>
      match monthMap w with
      | some m =>
        .ok (some (renderDate
          ⟨now.date.year, m, if m = 12 then 31 else daysInMonth now.date.year m⟩))
      | none => .ok none
    | none => .ok none

/-! ### Validator / coercer (`_validate_and_fix`, lines 220-266) -/

/-- First-match association lookup; Python dicts never hold duplicate keys,
so this is `d[k]` / `d.get(k)` wherever the key set is duplicate-free. -/
def lookupJ : List (String × Json) → String → Option Json
  | [], _ => none
  | (k, v) :: rest, key => if k = key then some v else lookupJ rest key

def lookupD (l : List (String × Json)) (k : String) : Json :=
  (lookupJ l k).getD .null

def hasKey (l : List (String × Json)) (k : String) : Bool :=
  (lookupJ l k).isSome

def keysOf (l : List (String × Json)) : List String :=
  l.map Prod.fst

def requiredFields : List String :=
  ["material_name", "quantity", "unit", "project_name", "location", "urgency", "deadline"]

def stringFields : List String :=
  ["material_name", "unit", "project_name", "location"]

/-- Step 1 of the validator: give every missing required field the value
null, walking the field list in order. -/
def ensureFrom : List String → List (String × Json) → List (String × Json)
  | [], l => l
  | f :: fs, l => ensureFrom fs (if hasKey l f then l else dictInsert l f .null)

/-- Model of Python `float(s)` on a string: optional surrounding whitespace,
optional sign, decimal digits with optional fraction and exponent.  The
`inf`/`nan` words and digit-group underscores are omitted from the model;
nothing in any claim depends on them. -/
def pyFloatOfString (s : String) : Option (Int × Int) :=
  let cs := dropSpacesL (dropSpacesL s.data.reverse).reverse
  let (neg, cs1) : Bool × List Char := match cs with
    | '-' :: r => (true, r)
    | '+' :: r => (false, r)
    | _ => (false, cs)
  let (ip, r1) := takeDigitsL cs1
  let (mAbs, e1, r2, okMant) : Nat × Int × List Char × Bool := match r1 with
    | '.' :: rf =>
      let (fp, rr) := takeDigitsL rf
      (natOfDigits ip * 10 ^ fp.length + natOfDigits fp, -(fp.length : Int), rr,
       !(ip.isEmpty && fp.isEmpty))
    | _ => (natOfDigits ip, 0, r1, !ip.isEmpty)
  if !okMant then none
  else
    match r2 with
    | [] => some ((if neg then -(mAbs : Int) else (mAbs : Int)), e1)
    | e :: re =>
      if e = 'e' ∨ e = 'E' then
        let (esign, re2) : Int × List Char := match re with
          | '+' :: rr => (1, rr)
          | '-' :: rr => (-1, rr)
          | _ => (1, re)
        let (ds, rr) := takeDigitsL re2
        if ds.isEmpty ∨ !rr.isEmpty then none
        else some ((if neg then -(mAbs : Int) else (mAbs : Int)),
                   e1 + esign * natOfDigits ds)
      else none

/-- Model of Python `float(x)` for JSON values.  A number with exponent 0
is an integer literal, which `json.loads` delivers as an arbitrary-precision
Python int; `float` of an int raises `OverflowError` — uncaught by the
caller's `except (ValueError, TypeError)` — once rounding passes the largest
double, i.e. for magnitudes of at least 2 ^ 1024 - 2 ^ 970 (`.error` here).
A number with a fraction or exponent is already a Python float, and a
numeric string saturates to infinity instead of raising, so neither can
overflow; booleans coerce to 0.0/1.0; lists and dicts raise the `TypeError`
the caller catches (`.ok none`). -/
def pyFloat : Json → Except String (Option Json)
  | .num m e =>
    if e = 0 ∧ 2 ^ 1024 - 2 ^ 970 ≤ m.natAbs then
      .error "int too large to convert to float"
    else .ok (some (.num m e))
  | .str s => .ok ((pyFloatOfString s).map (fun p => .num p.1 p.2))
  | .bool b => .ok (some (.num (if b then 1 else 0) 0))
  | _ => .ok none

def isNullJ : Json → Bool
  | .null => true
  | _ => false

/-- Step 3: `quantity` must be a number or null (`float(...)` with
`ValueError`/`TypeError` mapped to null); `float` of an out-of-range
integer raises out of the validator. -/
def fixQuantity (l : List (String × Json)) : Except String (List (String × Json)) :=
  if isNullJ (lookupD l "quantity") then .ok l
  else
    match pyFloat (lookupD l "quantity") with
    | .ok (some v') => .ok (dictInsert l "quantity" v')
    | .ok none => .ok (dictInsert l "quantity" .null)
    | .error e => .error e

def isValidUrgency : Json → Bool
  | .str s => s = "low" || s = "medium" || s = "high"
  | _ => false

/-- Step 4: an urgency outside the enum is replaced by inference from the
original text and the current deadline value. -/
def fixUrgency (l : List (String × Json)) (text : String) (now : PyDateTime) :
    List (String × Json) :=
  if isValidUrgency (lookupD l "urgency") then l
  else dictInsert l "urgency" (.str (inferUrgency text (lookupD l "deadline") now))

/-- Step 5: a truthy string deadline is kept when `fromisoformat` accepts
it, replaced by the relative-date parse of the original text otherwise; a
truthy non-string deadline becomes null; a falsy deadline (null, but also
empty string, zero, false, empty containers) is left untouched by the
`if data["deadline"]:` truthiness test. -/
def fixDeadline (l : List (String × Json)) (text : String) (now : PyDateTime) :
    Except String (List (String × Json)) :=
  if truthy (lookupD l "deadline") then
    match lookupD l "deadline" with
    | .str s =>
      match isoParse s with
      | some _ => .ok l
      | none =>
        (parseRelativeDate text now).map (fun pd =>
          dictInsert l "deadline"
            (match pd with
             | some ds => .str ds
             | none => .null))
    | _ => .ok (dictInsert l "deadline" .null)
  else .ok l

/-- Model of Python `str(x)`.  The validator applies it only to non-null,
non-string values, and every claim is indifferent to the resulting text, so
container renderings are abbreviated and the float rendering is schematic. -/
def pyStr : Json → String
  | .null => "None"
  | .bool b => if b then "True" else "False"
  | .num m e => if e = 0 then toString m else toString m ++ "e" ++ toString e
  | .str s => s
  | .arr _ => "[...]"
  | .obj _ => "\x7b...\x7d"

def normNull : Json → Bool
  | .str s => s = "" || s = "null"
  | _ => false

/-- First half of step 6: `str(...)` coercion of a non-string, non-null
value. -/
def strFieldCoerce (l : List (String × Json)) (f : String) : List (String × Json) :=
  match lookupD l f with
  | .null => l
  | .str _ => l
  | v => dictInsert l f (.str (pyStr v))

/-- Second half of step 6: empty string and the literal "null" become null. -/
def strFieldNorm (l : List (String × Json)) (f : String) : List (String × Json) :=
  if normNull (lookupD l f) then dictInsert l f .null else l

/-- Step 6 for one free-text field: coerce non-string non-null values with
`str(...)`, then normalise the empty string and the literal "null" to null. -/
def fixStrField (l : List (String × Json)) (f : String) : List (String × Json) :=
  strFieldNorm (strFieldCoerce l f) f

/-- Model of `_validate_and_fix` on a dict argument.  The `Except` layer
carries the two uncaught exceptions a dict input can produce: the
`OverflowError` from `float()` of an out-of-range integer quantity, and the
`OverflowError` escaping `_parse_relative_date` inside the deadline step. -/
def validateAndFix (data : List (String × Json)) (text : String) (now : PyDateTime) :
    Except String (List (String × Json)) :=
  match fixQuantity ((ensureFrom requiredFields data).filter
      (fun kv => requiredFields.contains kv.1)) with
  | .error e => .error e
  | .ok d3 =>
    match fixDeadline (fixUrgency d3 text now) text now with
    | .error e => .error e
    | .ok d5 => .ok (stringFields.foldl fixStrField d5)

/-- `_validate_and_fix` as called on an arbitrary recovered JSON value.
Every non-dict argument raises in the Python body (a `TypeError` from the
membership test or item assignment, or an `AttributeError` from `.items()`);
one representative message stands in for those interpreter texts. -/
def validateAny (j : Json) (text : String) (now : PyDateTime) : Except String Json :=
  match j with
  | .obj l => (validateAndFix l text now).map Json.obj
  | _ => .error "argument of type is not iterable"

/-! ### Response recovery (`_extract_json_from_response`, lines 134-159)

The fenced-block pattern with `re.DOTALL` is deterministic for the same
reason as the date patterns: each quantifier is bounded by a token its own
class excludes, except the lazy group body, which simply stops at the first
closing brace whose tail matches. -/

def backtickChar : Char := Char.ofNat 96

def fenceLit : List Char := [backtickChar, backtickChar, backtickChar]

/-- Does a whitespace run followed by a closing fence start here? -/
def fenceTailOk (cs : List Char) : Bool :=
  (matchLit fenceLit (dropSpacesL cs)).isSome

/-- Scan for the first closing brace whose tail completes the fence pattern;
every candidate that does not is swallowed by the lazy group body. -/
def fenceClose : List Char → List Char → Option (List Char)
  | [], _ => none
  | c :: rest, acc =>
    if c = '}' && fenceTailOk rest then some ((c :: acc).reverse)
    else fenceClose rest (c :: acc)

/-- Attempt the fence pattern at one start position, returning the brace
group.  The optional `json` tag consumes when present; when its branch
cannot complete, the untagged branch cannot either, since the next required
character would be the letter j. -/
def fenceMatchAt (cs : List Char) : Option (List Char) :=
  match matchLit fenceLit cs with
  | none => none
  | some r1 =>
    let r2 := (matchLit ['j', 's', 'o', 'n'] r1).getD r1
    match dropSpacesL r2 with
    | '{' :: rest => (fenceClose rest []).map (fun body => '{' :: body)
    | _ => none

/-- Leftmost match of the fenced-block pattern. -/
def fenceSearch : List Char → Option (List Char)
  | [] => none
  | cs@(_ :: rest) =>
    match fenceMatchAt cs with
    | some g => some g
    | none => fenceSearch rest

def idxOfChar (c : Char) : List Char → Option Nat
  | [] => none
  | x :: rest => if x = c then some 0 else (idxOfChar c rest).map (fun k => k + 1)

def lastIdxOfChar (c : Char) (cs : List Char) : Option Nat :=
  (idxOfChar c cs.reverse).map (fun k => cs.length - 1 - k)

/-- `response.find("\x7b")` / `response.rfind("\x7d")` and the inclusive
slice between them; an empty slice results when the last closing brace
precedes the first opening one, exactly as in Python. -/
def braceSlice (cs : List Char) : Option (List Char) :=
  match idxOfChar '{' cs, lastIdxOfChar '}' cs with
  | some i, some j => some ((cs.drop i).take (j + 1 - i))
  | _, _ => none

/-- Strategy 2 as a value: parse of the fenced group, when one exists. -/
def fenceResult (s : String) : Option Json :=
  (fenceSearch s.data).bind (fun g => loads (String.mk g))

/-- Strategy 3 as a value: parse of the first-to-last brace slice. -/
def braceResult (s : String) : Option Json :=
  (braceSlice s.data).bind (fun sub => loads (String.mk sub))

def recoveryErrMsg (s : String) : String :=
  "Could not extract valid JSON from response: " ++ pyTake 200 s

/-- Model of `_extract_json_from_response`: the three strategies in order,
first success wins, and a `ValueError` carrying a truncated preview when all
fail. -/
def extractJsonFromResponse (s : String) : Except String Json :=
  match loads s with
  | some j => .ok j
  | none =>
    match fenceResult s with
    | some j => .ok j
    | none =>
      match braceResult s with
      | some j => .ok j
      | none => .error (recoveryErrMsg s)

/-! ### The orchestrator (`extract`, lines 268-336) and batch runner

The model call is an oracle indexed by attempt number; a raised exception
and a returned completion body are its two outcomes.  Console printing and
the backoff sleep have no observable effect on the result and are dropped.
An empty or whitespace-only body `continue`s on a non-final attempt and
raises `ValueError` on the final one; both behave exactly like the
exception path of the same attempt, so the body below folds them into one
`.error`. -/

inductive ModelResult where
  | raise (msg : String)
  | ret (content : Option String)

def emptyRespMsg : String := "Empty response from model after all retries"

def fallbackObj (e : String) : List (String × Json) :=
  [("material_name", .null), ("quantity", .null), ("unit", .null),
   ("project_name", .null), ("location", .null), ("urgency", .str "low"),
   ("deadline", .null), ("error", .str e)]

/-- The guaranteed fallback record built when the final attempt fails. -/
def fallbackJson (e : String) : Json := .obj (fallbackObj e)

/-- One pass through the `try` body: model call, empty-body check, recovery,
validation. -/
def runAttempt (oracle : Nat → ModelResult) (text : String) (now : PyDateTime)
    (attempt : Nat) : Except String Json :=
  match oracle attempt with
  | .raise m => .error m
  | .ret none => .error emptyRespMsg
  | .ret (some raw) =>
    if (pyStrip raw).isEmpty then .error emptyRespMsg
    else do
      let j ← extractJsonFromResponse (pyStrip raw)
      validateAny j text now

/-- The attempt loop from index `attempt` with `remaining` retries left;
also counts the attempts made. -/
def extractAux (oracle : Nat → ModelResult) (text : String) (now : PyDateTime) :
    Nat → Nat → Option Json × Nat
  | attempt, 0 =>
    (match runAttempt oracle text now attempt with
     | .ok j => (some j, 1)
     | .error e => (some (fallbackJson e), 1))
  | attempt, remaining + 1 =>
    (match runAttempt oracle text now attempt with
     | .ok j => (some j, 1)
     | .error _ =>
       ((extractAux oracle text now (attempt + 1) remaining).1,
        (extractAux oracle text now (attempt + 1) remaining).2 + 1))

/-- Model of `extract` returning both the result and the number of attempts
performed.  `range(max_retries + 1)` is empty for a negative argument, and
the function then falls off the end returning Python `None`. -/
def extractRun (oracle : Nat → ModelResult) (text : String) (now : PyDateTime)
    (maxRetries : Int) : Option Json × Nat :=
  match maxRetries with
  | .ofNat n => extractAux oracle text now 0 n
  | .negSucc _ => (none, 0)

def extract (oracle : Nat → ModelResult) (text : String) (now : PyDateTime)
    (maxRetries : Int) : Option Json :=
  (extractRun oracle text now maxRetries).1

/-- `result["input_text"] = text` from `batch_extract`.  The last two
branches are unreachable under the default retry budget the batch runner
uses; Python would raise there. -/
def attachInput (r : Option Json) (t : String) : Json :=
  match r with
  | some (.obj l) => .obj (dictInsert l "input_text" (.str t))
  | some j => j
  | none => .null

/-- Model of `batch_extract`: every text goes through `extract` with the
default budget of 2 retries and gets its input attached; the incremental
file writes are I/O and carry no information. -/
def batchExtract (oracle : Nat → Nat → ModelResult) (texts : List String)
    (now : PyDateTime) : List Json :=
  texts.enum.map (fun p => attachInput (extract (oracle p.1) p.2 now 2) p.2)

/-! ### Association-list lemma kit -/

theorem keysOf_nil : keysOf [] = [] := rfl

theorem keysOf_cons (p : String × Json) (l : List (String × Json)) :
    keysOf (p :: l) = p.1 :: keysOf l := rfl

theorem lookupJ_cons (k0 : String) (w : Json) (rest : List (String × Json)) (k : String) :
    lookupJ ((k0, w) :: rest) k = if k0 = k then some w else lookupJ rest k := rfl

theorem dictInsert_cons (k0 : String) (w : Json) (rest : List (String × Json))
    (k : String) (v : Json) :
    dictInsert ((k0, w) :: rest) k v =
      if k0 = k then (k0, v) :: rest else (k0, w) :: dictInsert rest k v := rfl

theorem lookupJ_dictInsert_self (l : List (String × Json)) (k : String) (v : Json) :
    lookupJ (dictInsert l k v) k = some v := by
  induction l with
  | nil => simp [dictInsert, lookupJ]
  | cons p rest ih =>
    obtain ⟨k0, w⟩ := p
    by_cases h0 : k0 = k <;> simp [dictInsert_cons, lookupJ_cons, h0, ih]

theorem lookupJ_dictInsert_ne (l : List (String × Json)) (k k' : String) (v : Json)
    (h : k' ≠ k) : lookupJ (dictInsert l k v) k' = lookupJ l k' := by
  induction l with
  | nil => simp [dictInsert, lookupJ, Ne.symm h]
  | cons p rest ih =>
    obtain ⟨k0, w⟩ := p
    by_cases h0 : k0 = k
    · subst h0; simp [dictInsert_cons, lookupJ_cons, Ne.symm h]
    · simp [dictInsert_cons, lookupJ_cons, h0, ih]

theorem hasKey_cons (k0 : String) (w : Json) (rest : List (String × Json)) (k : String) :
    hasKey ((k0, w) :: rest) k = if k0 = k then true else hasKey rest k := by
  by_cases h0 : k0 = k <;> simp [hasKey, lookupJ_cons, h0]

theorem keysOf_dictInsert_of_hasKey (l : List (String × Json)) (k : String) (v : Json)
    (h : hasKey l k = true) : keysOf (dictInsert l k v) = keysOf l := by
  induction l with
  | nil => simp [hasKey, lookupJ] at h
  | cons p rest ih =>
    obtain ⟨k0, w⟩ := p
    by_cases h0 : k0 = k
    · simp [dictInsert_cons, h0, keysOf_cons]
    · rw [hasKey_cons, if_neg h0] at h
      simp [dictInsert_cons, keysOf_cons, h0, ih h]

theorem keysOf_dictInsert_of_not_hasKey (l : List (String × Json)) (k : String) (v : Json)
    (h : hasKey l k = false) : keysOf (dictInsert l k v) = keysOf l ++ [k] := by
  induction l with
  | nil => simp [dictInsert, keysOf]
  | cons p rest ih =>
    obtain ⟨k0, w⟩ := p
    by_cases h0 : k0 = k
    · rw [hasKey_cons, if_pos h0] at h; exact absurd h (by simp)
    · rw [hasKey_cons, if_neg h0] at h
      simp [dictInsert_cons, keysOf_cons, h0, ih h]

theorem hasKey_iff_mem_keysOf (l : List (String × Json)) (k : String) :
    hasKey l k = true ↔ k ∈ keysOf l := by
  induction l with
  | nil => simp [hasKey, lookupJ, keysOf]
  | cons p rest ih =>
    obtain ⟨k0, w⟩ := p
    by_cases h0 : k0 = k
    · simp [hasKey_cons, h0, keysOf_cons]
    · rw [hasKey_cons, if_neg h0]
      simp only [keysOf_cons, List.mem_cons]
      rw [ih]
      constructor
      · exact fun hm => Or.inr hm
      · rintro (hm | hm)
        · exact absurd hm.symm h0
        · exact hm

theorem keysOf_dictInsert_nodup (l : List (String × Json)) (k : String) (v : Json)
    (h : (keysOf l).Nodup) : (keysOf (dictInsert l k v)).Nodup := by
  by_cases hk : hasKey l k = true
  · rwa [keysOf_dictInsert_of_hasKey l k v hk]
  · rw [keysOf_dictInsert_of_not_hasKey l k v (by simpa using hk)]
    simp only [List.nodup_append, List.nodup_cons, List.not_mem_nil, not_false_iff,
      List.nodup_nil, true_and]
    refine ⟨h, ?_⟩
    intro a ha hb
    simp only [List.mem_singleton] at hb
    subst hb
    exact hk ((hasKey_iff_mem_keysOf l a).mpr ha)

/-! ### Claims about the retry loop and response recovery -/

/-- A concrete clock value used by closed witness statements. -/
def sampleNow : PyDateTime := ⟨⟨2026, 10, 12⟩, 3600⟩

/-- C10: with a negative `max_retries`, `range(max_retries + 1)` is empty,
the attempt loop body never runs, and `extract` falls off the end returning
Python `None` — neither a seven-field record nor the fallback record, so the
schema guarantee needs the unstated precondition `max_retries >= 0`. -/
theorem claimC10 (oracle : Nat → ModelResult) (text : String) (now : PyDateTime)
    (maxRetries : Int) (h : maxRetries < 0) :
    extractRun oracle text now maxRetries = (none, 0) ∧
      extract oracle text now maxRetries = none := by
  cases maxRetries with
  | ofNat n => exact absurd h (by simp)
  | negSucc k => exact ⟨rfl, rfl⟩

theorem claimC10_witness :
    extractRun (fun _ => ModelResult.raise "boom") "order bricks" sampleNow (-1) = (none, 0) ∧
      extract (fun _ => ModelResult.raise "boom") "order bricks" sampleNow (-1) = none :=
  claimC10 (fun _ => ModelResult.raise "boom") "order bricks" sampleNow (-1) (by decide)

/-- C9: when the whole response already parses as JSON, strategy 1 returns
exactly that parse and recovery stops there, so the fenced-block and
brace-scanning strategies cannot change the outcome. -/
theorem claimC9 (s : String) (j : Json) (h : loads s = some j) :
    extractJsonFromResponse s = .ok j := by
  simp [extractJsonFromResponse, h]

theorem claimC9_witness :
    extractJsonFromResponse "\x7b\"material_name\": \"cement\", \"quantity\": 10\x7d" =
      .ok (Json.obj [("material_name", Json.str "cement"), ("quantity", Json.num 10 0)]) :=
  claimC9 "\x7b\"material_name\": \"cement\", \"quantity\": 10\x7d"
    (Json.obj [("material_name", Json.str "cement"), ("quantity", Json.num 10 0)]) rfl

/-- C7: recovery tries the whole-string parse, then the fenced-block parse,
then the first-brace-to-last-brace parse, in that order, stopping at the
first success; when all three fail it raises an error whose message embeds
the response truncated to at most 200 characters, and never returns a
silent null. -/
theorem claimC7 (s : String) :
    (∀ j, loads s = some j → extractJsonFromResponse s = .ok j) ∧
    (loads s = none → ∀ j, fenceResult s = some j → extractJsonFromResponse s = .ok j) ∧
    (loads s = none → fenceResult s = none → ∀ j, braceResult s = some j →
      extractJsonFromResponse s = .ok j) ∧
    (loads s = none → fenceResult s = none → braceResult s = none →
      extractJsonFromResponse s =
          .error ("Could not extract valid JSON from response: " ++ pyTake 200 s) ∧
        (pyTake 200 s).length ≤ 200) := by
  refine ⟨?_, ?_, ?_, ?_⟩
  · intro j h; simp [extractJsonFromResponse, h]
  · intro h1 j h2; simp [extractJsonFromResponse, h1, h2]
  · intro h1 h2 j h3; simp [extractJsonFromResponse, h1, h2, h3]
  · intro h1 h2 h3
    refine ⟨by simp [extractJsonFromResponse, h1, h2, h3, recoveryErrMsg], ?_⟩
    show (String.mk (s.data.take 200)).length ≤ 200
    simp [List.length_take_le]

theorem claimC7_witness :
    extractJsonFromResponse "no structured payload here" =
        .error ("Could not extract valid JSON from response: " ++
          pyTake 200 "no structured payload here") ∧
      (pyTake 200 "no structured payload here").length ≤ 200 :=
  (claimC7 "no structured payload here").2.2.2 rfl rfl rfl

/-- All attempts raising: the loop makes every remaining attempt and ends in
the fallback carrying the final message. -/
theorem extractAux_raise (oracle : Nat → ModelResult) (text : String) (now : PyDateTime)
    (msgs : Nat → String) (h : ∀ k, oracle k = .raise (msgs k)) :
    ∀ remaining attempt,
      extractAux oracle text now attempt remaining =
        (some (fallbackJson (msgs (attempt + remaining))), remaining + 1) := by
  intro remaining
  induction remaining with
  | zero => intro attempt; simp [extractAux, runAttempt, h attempt]
  | succ r ih =>
    intro attempt
    have harith : attempt + 1 + r = attempt + (r + 1) := by omega
    simp [extractAux, runAttempt, h attempt, ih (attempt + 1), harith]

/-- C2 (amended): if the model call raises on every attempt, `extract` with
`max_retries = n >= 0` performs exactly `n + 1` attempts, propagates no
exception, and returns the all-null record with urgency "low" and `error`
equal to the final exception's message — which is non-empty exactly when
that message is; the code copies `str(e)` verbatim and adds no guarantee of
non-emptiness. -/
theorem claimC2 (oracle : Nat → ModelResult) (text : String) (now : PyDateTime)
    (msgs : Nat → String) (n : Nat) (h : ∀ k, oracle k = .raise (msgs k)) :
    extractRun oracle text now (Int.ofNat n) =
      (some (Json.obj
        [("material_name", Json.null), ("quantity", Json.null), ("unit", Json.null),
         ("project_name", Json.null), ("location", Json.null),
         ("urgency", Json.str "low"), ("deadline", Json.null),
         ("error", Json.str (msgs n))]), n + 1) := by
  have := extractAux_raise oracle text now msgs h n 0
  simp only [Nat.zero_add] at this
  simpa [extractRun, fallbackJson, fallbackObj] using this

theorem claimC2_witness :
    extractRun (fun _ => ModelResult.raise "connection reset") "need 5 bags" sampleNow
        (Int.ofNat 2) =
      (some (Json.obj
        [("material_name", Json.null), ("quantity", Json.null), ("unit", Json.null),
         ("project_name", Json.null), ("location", Json.null),
         ("urgency", Json.str "low"), ("deadline", Json.null),
         ("error", Json.str "connection reset")]), 3) :=
  claimC2 (fun _ => ModelResult.raise "connection reset") "need 5 bags" sampleNow
    (fun _ => "connection reset") 2 (fun _ => rfl)

/-- C2 counterexample: a collaborator whose exception stringifies to the
empty message is copied verbatim into the fallback, so the returned record's
`error` field is the empty string — the claim's "non-empty message of the
final exception" does not hold for it. -/
theorem claimC2_counterexample :
    extract (fun _ => ModelResult.raise "") "some text" sampleNow 0 =
        some (fallbackJson "") ∧
      ¬ ∃ s, lookupJ (fallbackObj "") "error" = some (Json.str s) ∧ s ≠ "" := by
  refine ⟨rfl, ?_⟩
  rintro ⟨s, hs, hne⟩
  have h0 : lookupJ (fallbackObj "") "error" = some (Json.str "") := rfl
  rw [h0] at hs
  injection hs with h1
  injection h1 with h2
  exact hne h2.symm

/-! ### Claims about urgency inference -/

/-- Inference always lands in the three-value enum. -/
theorem inferUrgency_total (text : String) (dl : Json) (now : PyDateTime) :
    inferUrgency text dl now = "low" ∨ inferUrgency text dl now = "medium" ∨
      inferUrgency text dl now = "high" := by
  unfold inferUrgency
  dsimp only
  repeat' split
  all_goals first
    | exact Or.inl rfl
    | exact Or.inr (Or.inl rfl)
    | exact Or.inr (Or.inr rfl)

/-- C6: the keyword table is consulted in the order high, medium, low with
the first matching level winning; only with no keyword match and a deadline
string accepted by the ISO parse does the day-distance rule high (< 7) /
medium (< 30) / low apply; with no keyword match and no usable deadline the
result is "low". -/
theorem claimC6 (text : String) (dl : Json) (now : PyDateTime) :
    (matchesAny (pyLower text) highKeywords = true → inferUrgency text dl now = "high") ∧
    (matchesAny (pyLower text) highKeywords = false →
      matchesAny (pyLower text) mediumKeywords = true →
      inferUrgency text dl now = "medium") ∧
    (matchesAny (pyLower text) highKeywords = false →
      matchesAny (pyLower text) mediumKeywords = false →
      matchesAny (pyLower text) lowKeywords = true →
      inferUrgency text dl now = "low") ∧
    (matchesAny (pyLower text) highKeywords = false →
      matchesAny (pyLower text) mediumKeywords = false →
      matchesAny (pyLower text) lowKeywords = false →
      ∀ s dt, dl = Json.str s → isoParse s = some dt →
        inferUrgency text dl now =
          (if daysUntil dt now < 7 then "high"
           else if daysUntil dt now < 30 then "medium" else "low")) ∧
    (matchesAny (pyLower text) highKeywords = false →
      matchesAny (pyLower text) mediumKeywords = false →
      matchesAny (pyLower text) lowKeywords = false →
      (∀ s, dl = Json.str s → isoParse s = none) →
      inferUrgency text dl now = "low") := by
  refine ⟨?_, ?_, ?_, ?_, ?_⟩
  · intro h; simp [inferUrgency, h]
  · intro h1 h2; simp [inferUrgency, h1, h2]
  · intro h1 h2 h3; simp [inferUrgency, h1, h2, h3]
  · intro h1 h2 h3 s dt hdl hiso
    subst hdl
    have hne : s ≠ "" := by
      intro he
      subst he
      have h0 : isoParse "" = none := rfl
      rw [h0] at hiso
      exact Option.noConfusion hiso
    simp [inferUrgency, h1, h2, h3, truthy, hne, hiso]
  · intro h1 h2 h3 h4
    unfold inferUrgency
    dsimp only
    rw [h1, h2, h3]
    simp only [Bool.false_eq_true, if_false]
    split
    · split
      · rename_i s _
        rw [h4 s rfl]
      · rfl
    · rfl

theorem claimC6_witness :
    inferUrgency "need it urgently" Json.null sampleNow = "high" ∧
      inferUrgency "plain order" (Json.str "2026-10-15") sampleNow = "high" := by
  constructor
  · exact (claimC6 "need it urgently" Json.null sampleNow).1 (by decide)
  · have h := (claimC6 "plain order" (Json.str "2026-10-15") sampleNow).2.2.2.1
      (by decide) (by decide) (by decide) "2026-10-15" ⟨⟨2026, 10, 15⟩, 0⟩ rfl (by decide)
    rw [h]
    decide

/-- After the urgency step the field holds one of the three enum strings. -/
theorem urgency_fixUrgency (l : List (String × Json)) (text : String) (now : PyDateTime) :
    lookupJ (fixUrgency l text now) "urgency" = some (.str "low") ∨
      lookupJ (fixUrgency l text now) "urgency" = some (.str "medium") ∨
      lookupJ (fixUrgency l text now) "urgency" = some (.str "high") := by
  unfold fixUrgency
  split
  · rename_i hv
    cases hl : lookupJ l "urgency" with
    | none =>
      rw [lookupD, hl] at hv
      simp [isValidUrgency] at hv
    | some v =>
      rw [lookupD, hl] at hv
      cases v with
      | str s =>
        simp only [Option.getD_some] at hv
        by_cases h1 : s = "low"
        · subst h1; simp [hl]
        · by_cases h2 : s = "medium"
          · subst h2; simp [hl]
          · by_cases h3 : s = "high"
            · subst h3; simp [hl]
            · exact absurd hv (by simp [isValidUrgency, h1, h2, h3])
      | null => simp [isValidUrgency] at hv
      | bool b => simp [isValidUrgency] at hv
      | num m e => simp [isValidUrgency] at hv
      | arr es => simp [isValidUrgency] at hv
      | obj ms => simp [isValidUrgency] at hv
  · rw [lookupJ_dictInsert_self]
    rcases inferUrgency_total text (lookupD l "deadline") now with h | h | h <;> simp [h]

/-- The deadline step touches only the deadline key. -/
theorem lookupJ_fixDeadline (l : List (String × Json)) (text : String) (now : PyDateTime)
    (out : List (String × Json)) (k : String) (hk : k ≠ "deadline")
    (h : fixDeadline l text now = .ok out) : lookupJ out k = lookupJ l k := by
  unfold fixDeadline at h
  split at h
  · split at h
    · rename_i s
      split at h
      · injection h with h'; subst h'; rfl
      · cases hpr : parseRelativeDate text now with
        | ok pd =>
          rw [hpr] at h
          simp only [Except.map] at h
          injection h with h'
          subst h'
          exact lookupJ_dictInsert_ne l "deadline" k _ hk
        | error e =>
          rw [hpr] at h
          simp only [Except.map] at h
          exact absurd h (by simp)
    · injection h with h'
      subst h'
      exact lookupJ_dictInsert_ne l "deadline" k _ hk
  · injection h with h'; subst h'; rfl

/-- One free-text-field step touches only its own key. -/
theorem lookupJ_fixStrField (l : List (String × Json)) (f k : String) (hk : k ≠ f) :
    lookupJ (fixStrField l f) k = lookupJ l k := by
  unfold fixStrField strFieldNorm strFieldCoerce
  repeat' split
  all_goals simp [lookupJ_dictInsert_ne, hk]

/-- The final fold over the four free-text fields preserves every other key. -/
theorem lookupJ_strFold (l : List (String × Json)) (k : String) (hk : ¬k ∈ stringFields) :
    lookupJ (stringFields.foldl fixStrField l) k = lookupJ l k := by
  simp only [stringFields, List.mem_cons, List.not_mem_nil, or_false, not_or] at hk
  obtain ⟨h1, h2, h3, h4⟩ := hk
  show lookupJ (fixStrField (fixStrField (fixStrField
    (fixStrField l "material_name") "unit") "project_name") "location") k = lookupJ l k
  rw [lookupJ_fixStrField _ _ _ h4, lookupJ_fixStrField _ _ _ h3,
    lookupJ_fixStrField _ _ _ h2, lookupJ_fixStrField _ _ _ h1]

/-- C5: whenever the Validator completes, the returned urgency is exactly one
of "low", "medium", "high" — a missing or invalid urgency having been
replaced by inference — and inference itself is total, producing one of the
three values for every text and every deadline value. -/
theorem claimC5 (data : List (String × Json)) (text : String) (now : PyDateTime)
    (out : List (String × Json)) (h : validateAndFix data text now = .ok out) :
    (lookupJ out "urgency" = some (.str "low") ∨
      lookupJ out "urgency" = some (.str "medium") ∨
      lookupJ out "urgency" = some (.str "high")) ∧
    (∀ t dl n2, inferUrgency t dl n2 = "low" ∨ inferUrgency t dl n2 = "medium" ∨
      inferUrgency t dl n2 = "high") := by
  refine ⟨?_, fun t dl n2 => inferUrgency_total t dl n2⟩
  unfold validateAndFix at h
  cases hfq : fixQuantity ((ensureFrom requiredFields data).filter
      (fun kv => requiredFields.contains kv.1)) with
  | error e =>
    simp only [hfq] at h
    exact absurd h (by simp)
  | ok d3 =>
    simp only [hfq] at h
    cases hfd : fixDeadline (fixUrgency d3 text now) text now with
    | error e =>
      simp only [hfd] at h
      exact absurd h (by simp)
    | ok d5 =>
      simp only [hfd, Except.ok.injEq] at h
      subst h
      rw [lookupJ_strFold _ _ (by decide),
        lookupJ_fixDeadline _ text now d5 "urgency" (by decide) hfd]
      exact urgency_fixUrgency _ text now

theorem claimC5_witness :
    ∃ out, validateAndFix [("urgency", Json.str "URGENT!")] "need asap" sampleNow = .ok out ∧
      (lookupJ out "urgency" = some (.str "low") ∨
        lookupJ out "urgency" = some (.str "medium") ∨
        lookupJ out "urgency" = some (.str "high")) :=
  ⟨_, rfl, (claimC5 [("urgency", Json.str "URGENT!")] "need asap" sampleNow _ rfl).1⟩

/-! ### Calendar lemmas -/

theorem daysInMonth_pos (y m : Nat) : 1 ≤ daysInMonth y m := by
  unfold daysInMonth
  repeat' split
  all_goals omega

theorem daysInMonth_le (y m : Nat) : daysInMonth y m ≤ 31 := by
  unfold daysInMonth
  repeat' split
  all_goals omega

theorem nextDay_valid (d : PyDate) (h : validDate d) : validDate (nextDay d) := by
  obtain ⟨y, mo, dd⟩ := d
  obtain ⟨h1, h2, h3, h4, h5⟩ := h
  unfold nextDay
  dsimp only
  split
  · rename_i hlt
    exact ⟨h1, h2, h3, by show 1 ≤ dd + 1; omega, by show dd + 1 ≤ daysInMonth y mo; omega⟩
  · split
    · rename_i hmo
      exact ⟨h1, by show 1 ≤ mo + 1; omega, by show mo + 1 ≤ 12; omega,
        le_refl 1, daysInMonth_pos y (mo + 1)⟩
    · exact ⟨by show 1 ≤ y + 1; omega, le_refl 1, by show (1 : Nat) ≤ 12; omega,
        le_refl 1, daysInMonth_pos (y + 1) 1⟩

theorem nextDay_year_le (d : PyDate) : d.year ≤ (nextDay d).year := by
  obtain ⟨y, mo, dd⟩ := d
  unfold nextDay
  dsimp only
  split
  · exact le_refl y
  · split
    · exact le_refl y
    · show y ≤ y + 1
      omega

theorem addDaysD_valid (d : PyDate) (n : Nat) (h : validDate d) :
    validDate (addDaysD d n) := by
  induction n generalizing d with
  | zero => exact h
  | succ k ih => exact ih (nextDay d) (nextDay_valid d h)

theorem addDaysD_year_mono (d : PyDate) (n : Nat) : d.year ≤ (addDaysD d n).year := by
  induction n generalizing d with
  | zero => exact le_refl _
  | succ k ih => exact le_trans (nextDay_year_le d) (ih (nextDay d))

theorem charDigit_digitChar (k : Nat) (h : k < 10) :
    charDigit (Nat.digitChar k) = some k := by
  interval_cases k <;> decide

theorem digit2_digitChar (n : Nat) (h : n < 100) :
    digit2 (Nat.digitChar (n / 10)) (Nat.digitChar (n % 10)) = some n := by
  unfold digit2
  rw [charDigit_digitChar (n / 10) (by omega), charDigit_digitChar (n % 10) (by omega)]
  simp only [Option.some.injEq]
  omega

theorem digit2_year_hi (y : Nat) (h : y ≤ 9999) :
    digit2 (Nat.digitChar (y / 1000)) (Nat.digitChar (y / 100 % 10)) = some (y / 100) := by
  unfold digit2
  rw [charDigit_digitChar (y / 1000) (by omega), charDigit_digitChar (y / 100 % 10) (by omega)]
  simp only [Option.some.injEq]
  omega

theorem digit2_year_lo (y : Nat) :
    digit2 (Nat.digitChar (y / 10 % 10)) (Nat.digitChar (y % 10)) = some (y % 100) := by
  unfold digit2
  rw [charDigit_digitChar (y / 10 % 10) (by omega), charDigit_digitChar (y % 10) (by omega)]
  simp only [Option.some.injEq]
  omega

theorem renderDate_data (y m dd : Nat) (hy1 : 1000 ≤ y) (hy2 : y ≤ 9999) :
    (renderDate ⟨y, m, dd⟩).data =
      [Nat.digitChar (y / 1000), Nat.digitChar (y / 100 % 10), Nat.digitChar (y / 10 % 10),
       Nat.digitChar (y % 10), '-', Nat.digitChar (m / 10), Nat.digitChar (m % 10), '-',
       Nat.digitChar (dd / 10), Nat.digitChar (dd % 10)] := by
  simp only [renderDate, renderYear, pad2]
  rw [if_neg (by omega : ¬y < 10), if_neg (by omega : ¬y < 100), if_neg (by omega : ¬y < 1000)]
  rfl

/-- Rendering a valid four-digit-year date and parsing it back. -/
theorem isoParse_renderDate (d : PyDate) (h : validDate d) (hy1 : 1000 ≤ d.year)
    (hy2 : d.year ≤ 9999) : isoParse (renderDate d) = some ⟨d, 0⟩ := by
  obtain ⟨y, m, dd⟩ := d
  simp only at hy1 hy2
  have hm2 : m < 100 := by
    have h3 : m ≤ 12 := h.2.2.1
    omega
  have hd2 : dd < 100 := by
    have h5 : dd ≤ daysInMonth y m := h.2.2.2.2
    have h31 := daysInMonth_le y m
    omega
  unfold isoParse
  rw [renderDate_data y m dd hy1 hy2]
  simp only [digit2_year_hi y hy2, digit2_year_lo y, digit2_digitChar m hm2,
    digit2_digitChar dd hd2]
  have ey : y / 100 * 100 + y % 100 = y := by omega
  rw [ey, if_pos h]

theorem monthMap_range (w : String) (m : Nat) (h : monthMap w = some m) :
    1 ≤ m ∧ m ≤ 12 := by
  unfold monthMap at h
  split_ifs at h
  all_goals (injection h with h'; omega)

theorem lastDay_eq (y m : Nat) :
    (if m = 12 then 31 else daysInMonth y m) = daysInMonth y m := by
  split
  · rename_i h12; subst h12; simp [daysInMonth]
  · rfl

/-- A successful relative-date parse always yields a string the ISO parser
accepts (the rendered result is a valid date with a four-digit year). -/
theorem parseRelativeDate_ok_parses (text : String) (now : PyDateTime) (ds : String)
    (hval : validDate now.date) (hy1 : 1000 ≤ now.date.year) (hy2 : now.date.year ≤ 9999)
    (h : parseRelativeDate text now = .ok (some ds)) : ∃ dt, isoParse ds = some dt := by
  cases hd : findDaysMatch (pyLower text).data with
  | some n =>
    simp only [parseRelativeDate, hd, pythonAddDays] at h
    split at h
    · rename_i hle
      simp only [Except.map, Except.ok.injEq, Option.some.injEq] at h
      subst h
      exact ⟨_, isoParse_renderDate _ (addDaysD_valid _ n hval)
        (le_trans hy1 (addDaysD_year_mono _ n)) hle⟩
    · simp only [Except.map] at h
      exact absurd h (by simp)
  | none =>
    simp only [parseRelativeDate, hd] at h
    cases hm : findMonthEndMatch (pyLower text).data with
    | some w =>
      simp only [hm] at h
      cases hmap : monthMap w with
      | some m =>
        simp only [hmap, Except.ok.injEq, Option.some.injEq] at h
        subst h
        obtain ⟨hm1, hm12⟩ := monthMap_range w m hmap
        rw [lastDay_eq]
        exact ⟨_, isoParse_renderDate _
          ⟨by show 1 ≤ now.date.year; omega, hm1, hm12,
            daysInMonth_pos _ _, le_refl _⟩ hy1 hy2⟩
      | none =>
        simp [hmap] at h
    | none =>
      simp [hm] at h

/-- C8 (amended): the "in N day(s)" pattern takes precedence and yields the
ISO rendering of the current date advanced N calendar days (raising past
year 9999, where Python datetime overflows); otherwise the FIRST occurrence
of "by <word> end" decides the outcome: when its word is an English month
name the result is the last calendar day of that month in the current year
(December via the hardcoded 31, equal to the actual month length; other
months via days-in-month, which respects leap years), and when its word is
not a month name the parser returns null even if a later occurrence names a
month; with no pattern match at all it returns null. -/
theorem claimC8 (text : String) (now : PyDateTime) :
    (∀ n, findDaysMatch (pyLower text).data = some n →
      (addDaysD now.date n).year ≤ 9999 →
      parseRelativeDate text now = .ok (some (renderDate (addDaysD now.date n)))) ∧
    (∀ n, findDaysMatch (pyLower text).data = some n →
      9999 < (addDaysD now.date n).year →
      parseRelativeDate text now = .error "date value out of range") ∧
    (∀ w m, findDaysMatch (pyLower text).data = none →
      findMonthEndMatch (pyLower text).data = some w → monthMap w = some m →
      parseRelativeDate text now =
        .ok (some (renderDate ⟨now.date.year, m,
          if m = 12 then 31 else daysInMonth now.date.year m⟩))) ∧
    (findDaysMatch (pyLower text).data = none →
      (∀ w, findMonthEndMatch (pyLower text).data = some w → monthMap w = none) →
      parseRelativeDate text now = .ok none) ∧
    (∀ y, daysInMonth y 2 = if isLeap y then 29 else 28) ∧
    (∀ y, daysInMonth y 12 = 31) := by
  refine ⟨?_, ?_, ?_, ?_, fun y => rfl, fun y => rfl⟩
  · intro n hd hle
    simp [parseRelativeDate, hd, pythonAddDays, hle, Except.map]
  · intro n hd hgt
    have hn : ¬(addDaysD now.date n).year ≤ 9999 := by omega
    simp [parseRelativeDate, hd, pythonAddDays, hn, Except.map]
  · intro w m hd hm hmap
    simp [parseRelativeDate, hd, hm, hmap]
  · intro hd hmn
    cases hm : findMonthEndMatch (pyLower text).data with
    | none => simp [parseRelativeDate, hd, hm]
    | some w => simp [parseRelativeDate, hd, hm, hmn w hm]

theorem claimC8_witness :
    parseRelativeDate "in 7 days" sampleNow =
        .ok (some (renderDate (addDaysD sampleNow.date 7))) ∧
      parseRelativeDate "by march end" sampleNow =
        .ok (some (renderDate ⟨sampleNow.date.year, 3,
          if 3 = 12 then 31 else daysInMonth sampleNow.date.year 3⟩)) := by
  constructor
  · exact (claimC8 "in 7 days" sampleNow).1 7 (by decide) (by decide)
  · exact (claimC8 "by march end" sampleNow).2.2.1 "march" 3 (by decide) (by decide) (by decide)

/-- C8 counterexample: the text contains "by march end" — the pattern with
an English month name — yet the parser returns null, because the leftmost
regex match is "by the end" and its word "the" is not a month. -/
theorem claimC8_counterexample :
    parseRelativeDate "order bricks by the end by march end" sampleNow = .ok none ∧
      strContains (pyLower "order bricks by the end by march end") "by march end" = true ∧
      monthMap "march" = some 3 :=
  ⟨rfl, rfl, rfl⟩

/-! ### Key-set lemmas for the validator pipeline -/

theorem truthy_lookupD_hasKey (l : List (String × Json)) (k : String)
    (h : truthy (lookupD l k) = true) : hasKey l k = true := by
  cases hl : lookupJ l k with
  | none =>
    unfold lookupD at h
    rw [hl, Option.getD_none] at h
    exact absurd h (by simp [truthy])
  | some v => simp [hasKey, hl]

theorem hasKey_of_not_nullD (l : List (String × Json)) (k : String)
    (h : isNullJ (lookupD l k) = false) : hasKey l k = true := by
  cases hl : lookupJ l k with
  | none =>
    unfold lookupD at h
    rw [hl, Option.getD_none] at h
    exact absurd h (by simp [isNullJ])
  | some v => simp [hasKey, hl]

theorem keysOf_fixQuantity (l out : List (String × Json)) (h : fixQuantity l = .ok out) :
    keysOf out = keysOf l := by
  unfold fixQuantity at h
  split at h
  · injection h with h'
    subst h'
    rfl
  · rename_i hnn
    have hk : hasKey l "quantity" = true :=
      hasKey_of_not_nullD l "quantity" (by simpa using hnn)
    split at h
    · injection h with h'
      subst h'
      exact keysOf_dictInsert_of_hasKey l "quantity" _ hk
    · injection h with h'
      subst h'
      exact keysOf_dictInsert_of_hasKey l "quantity" _ hk
    · exact absurd h (by simp)

theorem keysOf_fixUrgency (l : List (String × Json)) (text : String) (now : PyDateTime)
    (hk : hasKey l "urgency" = true) :
    keysOf (fixUrgency l text now) = keysOf l := by
  unfold fixUrgency
  split
  · rfl
  · exact keysOf_dictInsert_of_hasKey l "urgency" _ hk

theorem keysOf_fixDeadline (l : List (String × Json)) (text : String) (now : PyDateTime)
    (out : List (String × Json)) (h : fixDeadline l text now = .ok out) :
    keysOf out = keysOf l := by
  unfold fixDeadline at h
  split at h
  · rename_i htr
    have hk := truthy_lookupD_hasKey l "deadline" htr
    split at h
    · split at h
      · injection h with h'; subst h'; rfl
      · cases hpr : parseRelativeDate text now with
        | ok pd =>
          rw [hpr] at h
          simp only [Except.map] at h
          injection h with h'
          subst h'
          exact keysOf_dictInsert_of_hasKey l "deadline" _ hk
        | error e =>
          rw [hpr] at h
          simp only [Except.map] at h
          exact absurd h (by simp)
    · injection h with h'
      subst h'
      exact keysOf_dictInsert_of_hasKey l "deadline" _ hk
  · injection h with h'; subst h'; rfl

theorem keysOf_strFieldCoerce (l : List (String × Json)) (f : String) :
    keysOf (strFieldCoerce l f) = keysOf l := by
  unfold strFieldCoerce
  cases hl : lookupJ l f with
  | none => simp [lookupD, hl]
  | some v =>
    have hk : hasKey l f = true := by simp [hasKey, hl]
    cases v <;> simp [lookupD, hl] <;>
      exact keysOf_dictInsert_of_hasKey l f _ hk

theorem keysOf_strFieldNorm (l : List (String × Json)) (f : String) :
    keysOf (strFieldNorm l f) = keysOf l := by
  unfold strFieldNorm
  split
  · rename_i hn
    have hk : hasKey l f = true := by
      cases hl : lookupJ l f with
      | none =>
        unfold lookupD at hn
        rw [hl, Option.getD_none] at hn
        exact absurd hn (by simp [normNull])
      | some v => simp [hasKey, hl]
    exact keysOf_dictInsert_of_hasKey l f _ hk
  · rfl

theorem keysOf_fixStrField (l : List (String × Json)) (f : String) :
    keysOf (fixStrField l f) = keysOf l := by
  unfold fixStrField
  rw [keysOf_strFieldNorm, keysOf_strFieldCoerce]

theorem keysOf_strFold (l : List (String × Json)) :
    keysOf (stringFields.foldl fixStrField l) = keysOf l := by
  show keysOf (fixStrField (fixStrField (fixStrField
    (fixStrField l "material_name") "unit") "project_name") "location") = keysOf l
  rw [keysOf_fixStrField, keysOf_fixStrField, keysOf_fixStrField, keysOf_fixStrField]

theorem hasKey_dictInsert_self (l : List (String × Json)) (k : String) (v : Json) :
    hasKey (dictInsert l k v) k = true := by
  simp [hasKey, lookupJ_dictInsert_self]

theorem hasKey_dictInsert_mono (l : List (String × Json)) (k k' : String) (v : Json)
    (h : hasKey l k' = true) : hasKey (dictInsert l k v) k' = true := by
  by_cases he : k' = k
  · subst he; exact hasKey_dictInsert_self l k' v
  · unfold hasKey
    rw [lookupJ_dictInsert_ne l k k' v he]
    exact h

theorem hasKey_ensureFrom_mono (fs : List String) (l : List (String × Json)) (k : String)
    (h : hasKey l k = true) : hasKey (ensureFrom fs l) k = true := by
  induction fs generalizing l with
  | nil => exact h
  | cons f fs ih =>
    unfold ensureFrom
    split
    · exact ih l h
    · exact ih _ (hasKey_dictInsert_mono l f k .null h)

theorem hasKey_ensureFrom_of_mem (fs : List String) (l : List (String × Json)) (k : String)
    (h : k ∈ fs) : hasKey (ensureFrom fs l) k = true := by
  induction fs generalizing l with
  | nil => exact absurd h (List.not_mem_nil k)
  | cons f fs ih =>
    unfold ensureFrom
    rcases List.mem_cons.mp h with he | hm
    · subst he
      split
      · rename_i hkk
        exact hasKey_ensureFrom_mono fs l k hkk
      · exact hasKey_ensureFrom_mono fs _ k (hasKey_dictInsert_self l k .null)
    · split
      · exact ih l hm
      · exact ih _ hm

theorem keysOf_ensureFrom_nodup (fs : List String) (l : List (String × Json))
    (h : (keysOf l).Nodup) : (keysOf (ensureFrom fs l)).Nodup := by
  induction fs generalizing l with
  | nil => exact h
  | cons f fs ih =>
    unfold ensureFrom
    split
    · exact ih l h
    · exact ih _ (keysOf_dictInsert_nodup l f .null h)

theorem mem_keysOf_ensureFrom (fs : List String) (l : List (String × Json)) (k : String)
    (h : k ∈ keysOf (ensureFrom fs l)) : k ∈ keysOf l ∨ k ∈ fs := by
  induction fs generalizing l with
  | nil => exact Or.inl h
  | cons f fs ih =>
    unfold ensureFrom at h
    split at h
    · rcases ih l h with h1 | h1
      · exact Or.inl h1
      · exact Or.inr (List.mem_cons_of_mem f h1)
    · rcases ih _ h with h1 | h1
      · rename_i hnk
        rw [keysOf_dictInsert_of_not_hasKey l f .null (by simpa using hnk)] at h1
        rcases List.mem_append.mp h1 with h2 | h2
        · exact Or.inl h2
        · simp only [List.mem_singleton] at h2
          subst h2
          exact Or.inr (List.mem_cons_self _ _)
      · exact Or.inr (List.mem_cons_of_mem f h1)

theorem keysOf_filter (l : List (String × Json)) (p : String → Bool) :
    keysOf (l.filter (fun kv => p kv.1)) = (keysOf l).filter p := by
  induction l with
  | nil => rfl
  | cons q rest ih =>
    obtain ⟨k0, v0⟩ := q
    by_cases h : p k0 <;> simp [List.filter_cons, keysOf_cons, h, ih]

theorem lookupD_eq_non_null (l : List (String × Json)) (k : String) (v : Json)
    (hv : v ≠ Json.null) (h : lookupD l k = v) : lookupJ l k = some v := by
  cases hl : lookupJ l k with
  | none =>
    unfold lookupD at h
    rw [hl, Option.getD_none] at h
    exact absurd h.symm hv
  | some w =>
    unfold lookupD at h
    rw [hl, Option.getD_some] at h
    exact congrArg some h

theorem contains_requiredFields (k : String) (h : k ∈ requiredFields) :
    requiredFields.contains k = true := by
  simp only [requiredFields, List.mem_cons, List.not_mem_nil, or_false] at h
  rcases h with h | h | h | h | h | h | h <;> subst h <;> decide

/-- First-match lookup commutes with the key filter when the key passes the
predicate. -/
theorem lookupJ_filter_of_pred (l : List (String × Json)) (p : String → Bool) (k : String)
    (hp : p k = true) : lookupJ (l.filter (fun kv => p kv.1)) k = lookupJ l k := by
  induction l with
  | nil => rfl
  | cons q rest ih =>
    obtain ⟨k0, v0⟩ := q
    by_cases hk0 : k0 = k
    · subst hk0
      simp [List.filter_cons, hp, lookupJ_cons]
    · by_cases hpk0 : p k0 = true
      · simp [List.filter_cons, hpk0, lookupJ_cons, hk0, ih]
      · simp [List.filter_cons, hpk0, ih, lookupJ_cons, hk0]

/-- Ensuring missing fields never rebinds a key that is already present. -/
theorem lookupJ_ensureFrom_of_hasKey (fs : List String) (l : List (String × Json))
    (k : String) (h : hasKey l k = true) :
    lookupJ (ensureFrom fs l) k = lookupJ l k := by
  induction fs generalizing l with
  | nil => rfl
  | cons f fs ih =>
    unfold ensureFrom
    split
    · exact ih l h
    · rename_i hnf
      by_cases hfk : f = k
      · subst hfk
        exact absurd h hnf
      · rw [ih (dictInsert l f .null) (hasKey_dictInsert_mono l f k .null h)]
        exact lookupJ_dictInsert_ne l f k .null (fun he => hfk he.symm)

/-- An absent required field is bound to null by the ensuring pass. -/
theorem lookupJ_ensureFrom_of_not_hasKey (fs : List String) (l : List (String × Json))
    (k : String) (h : hasKey l k = false) (hk : k ∈ fs) :
    lookupJ (ensureFrom fs l) k = some Json.null := by
  induction fs generalizing l with
  | nil => exact absurd hk (List.not_mem_nil k)
  | cons f fs ih =>
    unfold ensureFrom
    by_cases hfk : f = k
    · subst hfk
      split
      · rename_i ht
        rw [h] at ht
        exact Bool.noConfusion ht
      · rw [lookupJ_ensureFrom_of_hasKey fs _ f (hasKey_dictInsert_self l f .null)]
        exact lookupJ_dictInsert_self l f .null
    · have hm : k ∈ fs := by
        rcases List.mem_cons.mp hk with he | hm
        · exact absurd he.symm hfk
        · exact hm
      split
      · exact ih l h hm
      · refine ih (dictInsert l f .null) ?_ hm
        unfold hasKey
        rw [lookupJ_dictInsert_ne l f k .null (fun he => hfk he.symm)]
        exact h

/-- The value a required field holds after steps 1-2: the input's own value
when the field was bound, null otherwise. -/
theorem lookupD_stage2 (data : List (String × Json)) (k : String) (hk : k ∈ requiredFields) :
    lookupD ((ensureFrom requiredFields data).filter
      (fun kv => requiredFields.contains kv.1)) k =
    (if hasKey data k = true then lookupD data k else Json.null) := by
  unfold lookupD
  rw [lookupJ_filter_of_pred _ _ _ (contains_requiredFields k hk)]
  by_cases h : hasKey data k = true
  · rw [lookupJ_ensureFrom_of_hasKey _ _ _ h, if_pos h]
  · rw [lookupJ_ensureFrom_of_not_hasKey _ _ _ (by simpa using h) hk, if_neg h]
    rfl

/-- Every required field has a key after steps 1-4 of the validator. -/
theorem hasKey_pipeline (data : List (String × Json)) (text : String) (now : PyDateTime)
    (k : String) (d3 : List (String × Json)) (hk : k ∈ requiredFields)
    (hfq : fixQuantity ((ensureFrom requiredFields data).filter
      (fun kv => requiredFields.contains kv.1)) = .ok d3) :
    hasKey (fixUrgency d3 text now) k = true := by
  have h1 : hasKey (ensureFrom requiredFields data) k = true :=
    hasKey_ensureFrom_of_mem _ _ _ hk
  have h2 : hasKey ((ensureFrom requiredFields data).filter
      (fun kv => requiredFields.contains kv.1)) k = true := by
    rw [hasKey_iff_mem_keysOf] at h1 ⊢
    rw [keysOf_filter]
    exact List.mem_filter.mpr ⟨h1, contains_requiredFields k hk⟩
  have h3 : hasKey d3 k = true := by
    rw [hasKey_iff_mem_keysOf, keysOf_fixQuantity _ _ hfq]
    exact (hasKey_iff_mem_keysOf _ _).mp h2
  have hu : hasKey d3 "urgency" = true := by
    rw [hasKey_iff_mem_keysOf, keysOf_fixQuantity _ _ hfq, keysOf_filter]
    have := hasKey_ensureFrom_of_mem requiredFields data "urgency" (by decide)
    rw [hasKey_iff_mem_keysOf] at this
    exact List.mem_filter.mpr ⟨this, by decide⟩
  rw [hasKey_iff_mem_keysOf, keysOf_fixUrgency _ _ _ hu]
  exact (hasKey_iff_mem_keysOf _ _).mp h3

/-- C3 (amended): whenever the Validator completes, the deadline of the
result is null, or a string the ISO parser accepts — a set wider than pure
YYYY-MM-DD, since `fromisoformat` also takes a trailing time part — or a
falsy value (empty string, zero, false, empty container) that the
`if data["deadline"]:` truthiness test left in place unvalidated.  A truthy
string failing the ISO parse is replaced by the Relative Date Parser result
and a truthy non-string becomes null, but falsy non-null values are neither
validated nor nulled, contrary to the claim. -/
theorem claimC3 (data : List (String × Json)) (text : String) (now : PyDateTime)
    (out : List (String × Json)) (hval : validDate now.date)
    (hy1 : 1000 ≤ now.date.year) (hy2 : now.date.year ≤ 9999)
    (h : validateAndFix data text now = .ok out) :
    lookupJ out "deadline" = some Json.null ∨
      (∃ v, lookupJ out "deadline" = some v ∧ truthy v = false) ∨
      (∃ s dt, lookupJ out "deadline" = some (Json.str s) ∧ isoParse s = some dt) := by
  unfold validateAndFix at h
  cases hfq : fixQuantity ((ensureFrom requiredFields data).filter
      (fun kv => requiredFields.contains kv.1)) with
  | error e =>
    simp only [hfq] at h
    exact absurd h (by simp)
  | ok d3 =>
  simp only [hfq] at h
  have hkd : hasKey (fixUrgency d3 text now) "deadline" = true :=
    hasKey_pipeline data text now "deadline" d3 (by decide) hfq
  generalize hg : fixUrgency d3 text now = d4 at h hkd
  cases hfd : fixDeadline d4 text now with
  | error e =>
    simp only [hfd] at h
    exact absurd h (by simp)
  | ok d5 =>
    simp only [hfd, Except.ok.injEq] at h
    subst h
    rw [lookupJ_strFold _ _ (by decide)]
    unfold fixDeadline at hfd
    split at hfd
    · rename_i htr
      split at hfd
      · rename_i s heqs
        split at hfd
        · rename_i dt heqp
          injection hfd with h5
          subst h5
          exact Or.inr (Or.inr ⟨s, dt,
            lookupD_eq_non_null d4 "deadline" (Json.str s) (by simp) heqs, heqp⟩)
        · cases hpr : parseRelativeDate text now with
          | ok pd =>
            rw [hpr] at hfd
            simp only [Except.map] at hfd
            injection hfd with h5
            subst h5
            cases pd with
            | none =>
              exact Or.inl (by rw [lookupJ_dictInsert_self])
            | some ds =>
              obtain ⟨dt, hiso⟩ :=
                parseRelativeDate_ok_parses text now ds hval hy1 hy2 hpr
              exact Or.inr (Or.inr ⟨ds, dt, by rw [lookupJ_dictInsert_self], hiso⟩)
          | error e =>
            rw [hpr] at hfd
            simp only [Except.map] at hfd
            exact absurd hfd (by simp)
      · injection hfd with h5
        subst h5
        exact Or.inl (by rw [lookupJ_dictInsert_self])
    · rename_i htr
      injection hfd with h5
      subst h5
      cases hvv : lookupJ d4 "deadline" with
      | none =>
        unfold hasKey at hkd
        rw [hvv] at hkd
        exact absurd hkd (by simp)
      | some v =>
        refine Or.inr (Or.inl ⟨v, rfl, ?_⟩)
        have : lookupD d4 "deadline" = v := by
          unfold lookupD
          rw [hvv, Option.getD_some]
        rw [this] at htr
        simpa using htr

theorem claimC3_witness :
    ∃ out, validateAndFix [("deadline", Json.str "March 15")] "deliver in 7 days"
        sampleNow = .ok out ∧
      (lookupJ out "deadline" = some Json.null ∨
        (∃ v, lookupJ out "deadline" = some v ∧ truthy v = false) ∨
        (∃ s dt, lookupJ out "deadline" = some (Json.str s) ∧ isoParse s = some dt)) :=
  ⟨_, rfl, claimC3 [("deadline", Json.str "March 15")] "deliver in 7 days" sampleNow _
    (by decide) (by decide) (by decide) rfl⟩

/-- C3 counterexample: a deadline holding the number 0 is present and not a
string, yet the Validator leaves it untouched — the returned deadline is
neither null nor a string, refuting both the "null or valid ISO string"
invariant and the "present but not a string is set to null" clause:
`if data["deadline"]:` skips every falsy value. -/
theorem claimC3_counterexample :
    (∃ out, validateAndFix [("deadline", Json.num 0 0)] "no dates here" sampleNow = .ok out ∧
      lookupJ out "deadline" = some (Json.num 0 0)) ∧
      Json.num 0 0 ≠ Json.null ∧ (∀ s, Json.num 0 0 ≠ Json.str s) :=
  ⟨⟨_, rfl, rfl⟩, fun h => Json.noConfusion h, fun _ h => Json.noConfusion h⟩

/-! ### Claim C4: when validation can and cannot raise -/

/-- The deadline step — the only fallible validator step — succeeds whenever
the relative-date parse does. -/
theorem fixDeadline_ok (l : List (String × Json)) (text : String) (now : PyDateTime)
    (pd : Option String) (hpr : parseRelativeDate text now = .ok pd) :
    ∃ out, fixDeadline l text now = .ok out := by
  unfold fixDeadline
  split
  · split
    · split
      · exact ⟨_, rfl⟩
      · rw [hpr]; exact ⟨_, rfl⟩
    · exact ⟨_, rfl⟩
  · exact ⟨_, rfl⟩

/-- C4 (amended): validation of a recovered value completes normally
whenever that value is a JSON object, provided the relative-date
computation on the original text does not overflow the date range AND the
quantity coercion does not raise — `float()` of an integer whose magnitude
is at least 2^1024 − 2^970 raises `OverflowError`, which the
`except (ValueError, TypeError)` clause does not catch, so such an object
also escapes the validator (third conjunct); and recovery can succeed with
a non-object JSON value — a bare number, string, array, boolean or null
parses fine — on every one of which `_validate_and_fix` raises, so a retry
in `extract` can also be triggered by a validation failure, not only by a
model-call failure, an empty body, or recovery failure. -/
theorem claimC4 (text : String) (now : PyDateTime) :
    (∀ j, (∀ l, j ≠ Json.obj l) → ∃ e, validateAny j text now = .error e) ∧
    (∀ l pd, parseRelativeDate text now = .ok pd →
      (∀ e, pyFloat (lookupD l "quantity") ≠ Except.error e) →
      ∃ out, validateAny (Json.obj l) text now = .ok (Json.obj out)) ∧
    (∀ m : Int, 2 ^ 1024 - 2 ^ 970 ≤ m.natAbs →
      ∃ e, validateAny (Json.obj [("quantity", Json.num m 0)]) text now = .error e) := by
  refine ⟨?_, ?_, ?_⟩
  · intro j hne
    cases j with
    | obj l => exact absurd rfl (hne l)
    | null => exact ⟨_, rfl⟩
    | bool b => exact ⟨_, rfl⟩
    | num m e => exact ⟨_, rfl⟩
    | str s => exact ⟨_, rfl⟩
    | arr es => exact ⟨_, rfl⟩
  · intro l pd hpr hq
    cases hfq : fixQuantity ((ensureFrom requiredFields l).filter
        (fun kv => requiredFields.contains kv.1)) with
    | error e =>
      exfalso
      unfold fixQuantity at hfq
      split at hfq
      · exact Except.noConfusion hfq
      · rename_i hnn
        simp only [Bool.not_eq_true] at hnn
        have hB : isNullJ (lookupD ((ensureFrom requiredFields l).filter
            (fun kv => requiredFields.contains kv.1)) "quantity") = false := hnn
        split at hfq
        · exact Except.noConfusion hfq
        · exact Except.noConfusion hfq
        · rename_i e0 heq
          have hst := lookupD_stage2 l "quantity" (by decide)
          cases hhk : hasKey l "quantity" with
          | false =>
            rw [hhk] at hst
            simp only [Bool.false_eq_true, if_false] at hst
            rw [hst] at hB
            exact absurd hB (by decide)
          | true =>
            rw [hhk] at hst
            simp only [if_true] at hst
            rw [hst] at heq
            exact hq e0 heq
    | ok d3 =>
      obtain ⟨mid, hmid⟩ := fixDeadline_ok (fixUrgency d3 text now) text now pd hpr
      refine ⟨stringFields.foldl fixStrField mid, ?_⟩
      unfold validateAny validateAndFix
      simp only [hfq, hmid, Except.map]
  · intro m hm
    have hl : lookupD ((ensureFrom requiredFields [("quantity", Json.num m 0)]).filter
        (fun kv => requiredFields.contains kv.1)) "quantity" = Json.num m 0 := rfl
    have hfq : fixQuantity ((ensureFrom requiredFields [("quantity", Json.num m 0)]).filter
        (fun kv => requiredFields.contains kv.1)) =
        .error "int too large to convert to float" := by
      have hnn : isNullJ (Json.num m 0) = false := rfl
      have hpf : pyFloat (Json.num m 0) = Except.error "int too large to convert to float" := by
        unfold pyFloat
        exact if_pos ⟨rfl, hm⟩
      unfold fixQuantity
      rw [hl, if_neg (fun hcon => Bool.noConfusion (hnn.symm.trans hcon)), hpf]
    refine ⟨"int too large to convert to float", ?_⟩
    unfold validateAny validateAndFix
    simp only [hfq, Except.map]

/-- C4 counterexample: the raw response "7" is successfully recovered by
strategy 1 as the JSON number 7, and the Validator then raises on it (a
`TypeError` in Python); the same response drives a whole attempt of
`extract` into its retry path. -/
theorem claimC4_counterexample :
    extractJsonFromResponse "7" = .ok (Json.num 7 0) ∧
      validateAny (Json.num 7 0) "some text" sampleNow =
        .error "argument of type is not iterable" ∧
      runAttempt (fun _ => ModelResult.ret (some "7")) "some text" sampleNow 0 =
        .error "argument of type is not iterable" :=
  ⟨rfl, rfl, rfl⟩

theorem claimC4_witness :
    (∃ e, validateAny (Json.num 7 0) "a text" sampleNow = .error e) ∧
      (∃ out, validateAny (Json.obj [("quantity", Json.str "5")]) "a text" sampleNow =
        .ok (Json.obj out)) ∧
      (∃ e, validateAny (Json.obj [("quantity", Json.num ((2 : Int) ^ 1024) 0)])
        "a text" sampleNow = .error e) := by
  refine ⟨?_, ?_, ?_⟩
  · exact (claimC4 "a text" sampleNow).1 (Json.num 7 0) (fun _ h => Json.noConfusion h)
  · refine (claimC4 "a text" sampleNow).2.1 [("quantity", Json.str "5")] none rfl ?_
    intro e h
    have hc : pyFloat (lookupD [("quantity", Json.str "5")] "quantity") =
        Except.ok (some (Json.num 5 0)) := rfl
    rw [hc] at h
    exact Except.noConfusion h
  · refine (claimC4 "a text" sampleNow).2.2 ((2 : Int) ^ 1024) ?_
    rw [Int.natAbs_pow]
    show 2 ^ 1024 - 2 ^ 970 ≤ 2 ^ 1024
    exact Nat.sub_le _ _

/-! ### Claim C1: schema closure -/

theorem mem_of_contains_requiredFields (k : String) (h : requiredFields.contains k = true) :
    k ∈ requiredFields :=
  List.mem_of_elem_eq_true h

/-- Core of schema closure: a completed validation carries exactly the seven
required keys, as a permutation of the schema list. -/
theorem validateAndFix_keys (data : List (String × Json)) (text : String) (now : PyDateTime)
    (out : List (String × Json)) (hn : (keysOf data).Nodup)
    (h : validateAndFix data text now = .ok out) :
    (keysOf out).Perm requiredFields := by
  unfold validateAndFix at h
  cases hfq : fixQuantity ((ensureFrom requiredFields data).filter
      (fun kv => requiredFields.contains kv.1)) with
  | error e =>
    simp only [hfq] at h
    exact absurd h (by simp)
  | ok d3 =>
  simp only [hfq] at h
  have hu3 : hasKey d3 "urgency" = true := by
    rw [hasKey_iff_mem_keysOf, keysOf_fixQuantity _ _ hfq, keysOf_filter]
    have hm := hasKey_ensureFrom_of_mem requiredFields data "urgency" (by decide)
    rw [hasKey_iff_mem_keysOf] at hm
    exact List.mem_filter.mpr ⟨hm, by decide⟩
  cases hfd : fixDeadline (fixUrgency d3 text now) text now with
  | error e =>
    simp only [hfd] at h
    exact absurd h (by simp)
  | ok d5 =>
    simp only [hfd, Except.ok.injEq] at h
    subst h
    rw [keysOf_strFold, keysOf_fixDeadline _ _ _ _ hfd, keysOf_fixUrgency _ _ _ hu3,
      keysOf_fixQuantity _ _ hfq]
    have hnod2 : (keysOf ((ensureFrom requiredFields data).filter
        (fun kv => requiredFields.contains kv.1))).Nodup := by
      rw [keysOf_filter]
      exact (keysOf_ensureFrom_nodup requiredFields data hn).filter _
    refine (List.perm_ext_iff_of_nodup hnod2 (by decide)).mpr ?_
    intro k
    constructor
    · intro hk
      rw [keysOf_filter] at hk
      exact mem_of_contains_requiredFields k (List.mem_filter.mp hk).2
    · intro hk
      have h2 : hasKey ((ensureFrom requiredFields data).filter
          (fun kv => requiredFields.contains kv.1)) k = true := by
        rw [hasKey_iff_mem_keysOf, keysOf_filter]
        have hm := hasKey_ensureFrom_of_mem requiredFields data k hk
        rw [hasKey_iff_mem_keysOf] at hm
        exact List.mem_filter.mpr ⟨hm, contains_requiredFields k hk⟩
      exact (hasKey_iff_mem_keysOf _ _).mp h2

/-- Duplicate-freedom of the top-level keys of a parsed value: Python dicts
cannot hold duplicate keys, and `dictInsert` reproduces that. -/
def topNodup : Json → Prop
  | .obj l => (keysOf l).Nodup
  | _ => True

theorem parseJ_nodup : ∀ fuel : Nat,
    (∀ cs j rest, parseJValue fuel cs = some (j, rest) → topNodup j) ∧
    (∀ cs acc j rest, (keysOf acc).Nodup →
      parseJMembers fuel cs acc = some (j, rest) → topNodup j) ∧
    (∀ cs acc j rest, parseJElems fuel cs acc = some (j, rest) → topNodup j) := by
  intro fuel
  induction fuel with
  | zero =>
    refine ⟨?_, ?_, ?_⟩ <;> intro cs
    · intro j rest h; exact absurd h (by simp [parseJValue])
    · intro acc j rest _ h; exact absurd h (by simp [parseJMembers])
    · intro acc j rest h; exact absurd h (by simp [parseJElems])
  | succ f ih =>
    obtain ⟨ihv, ihm, ihe⟩ := ih
    refine ⟨?_, ?_, ?_⟩
    · intro cs j rest h
      unfold parseJValue at h
      split at h
      · simp only [Option.some.injEq, Prod.mk.injEq] at h
        rw [← h.1]; trivial
      · split at h
        · simp only [Option.some.injEq, Prod.mk.injEq] at h
          rw [← h.1]; trivial
        · split at h
          · simp only [Option.some.injEq, Prod.mk.injEq] at h
            rw [← h.1]; trivial
          · split at h
            · rename_i rest1 heq1
              cases hs : parseJStr rest1 with
              | none => rw [hs] at h; exact absurd h (by simp)
              | some p =>
                obtain ⟨str1, r1⟩ := p
                simp only [hs, Option.map_some', Option.some.injEq, Prod.mk.injEq] at h
                rw [← h.1]; trivial
            · split at h
              · simp only [Option.some.injEq, Prod.mk.injEq] at h
                rw [← h.1]
                show (keysOf ([] : List (String × Json))).Nodup
                simp [keysOf]
              · exact ihm _ [] j rest (by simp [keysOf]) h
            · split at h
              · simp only [Option.some.injEq, Prod.mk.injEq] at h
                rw [← h.1]; trivial
              · exact ihe _ [] j rest h
            · cases hn : parseJNum (jws cs) with
              | none => rw [hn] at h; exact absurd h (by simp)
              | some p =>
                obtain ⟨mv, r1⟩ := p
                simp only [hn, Option.map_some', Option.some.injEq, Prod.mk.injEq] at h
                rw [← h.1]; trivial
    · intro cs acc j rest hacc h
      unfold parseJMembers at h
      split at h
      · rename_i rest1
        cases hs : parseJStr rest1 with
        | none => rw [hs] at h; exact absurd h (by simp)
        | some p =>
          obtain ⟨k, r1⟩ := p
          simp only [hs] at h
          split at h
          · rename_i r2 heq2
            cases hv : parseJValue f r2 with
            | none => rw [hv] at h; exact absurd h (by simp)
            | some q =>
              obtain ⟨v, r3⟩ := q
              simp only [hv] at h
              split at h
              · exact ihm _ _ j rest (keysOf_dictInsert_nodup acc k v hacc) h
              · simp only [Option.some.injEq, Prod.mk.injEq] at h
                rw [← h.1]
                exact keysOf_dictInsert_nodup acc k v hacc
              · exact absurd h (by simp)
          · exact absurd h (by simp)
      · exact absurd h (by simp)
    · intro cs acc j rest h
      unfold parseJElems at h
      cases hv : parseJValue f cs with
      | none => rw [hv] at h; exact absurd h (by simp)
      | some q =>
        obtain ⟨v, r1⟩ := q
        simp only [hv] at h
        split at h
        · exact ihe _ _ j rest h
        · simp only [Option.some.injEq, Prod.mk.injEq] at h
          rw [← h.1]; trivial
        · exact absurd h (by simp)

theorem loads_topNodup (s : String) (j : Json) (h : loads s = some j) : topNodup j := by
  unfold loads at h
  cases hp : parseJValue (2 * s.length + 4) s.data with
  | none => rw [hp] at h; exact absurd h (by simp)
  | some p =>
    obtain ⟨j0, rest0⟩ := p
    simp only [hp] at h
    split at h
    · injection h with h'
      subst h'
      exact (parseJ_nodup _).1 s.data j0 rest0 hp
    · exact absurd h (by simp)

theorem extractJsonFromResponse_topNodup (s : String) (j : Json)
    (h : extractJsonFromResponse s = .ok j) : topNodup j := by
  unfold extractJsonFromResponse at h
  cases h1 : loads s with
  | some j0 =>
    simp only [h1] at h
    injection h with h'
    subst h'
    exact loads_topNodup _ _ h1
  | none =>
    simp only [h1] at h
    cases h2 : fenceResult s with
    | some j0 =>
      simp only [h2] at h
      injection h with h'
      subst h'
      unfold fenceResult at h2
      cases hf : fenceSearch s.data with
      | none => rw [hf] at h2; exact absurd h2 (by simp)
      | some g =>
        rw [hf] at h2
        simp only [Option.some_bind] at h2
        exact loads_topNodup _ _ h2
    | none =>
      simp only [h2] at h
      cases h3 : braceResult s with
      | some j0 =>
        simp only [h3] at h
        injection h with h'
        subst h'
        unfold braceResult at h3
        cases hb : braceSlice s.data with
        | none => rw [hb] at h3; exact absurd h3 (by simp)
        | some sub =>
          rw [hb] at h3
          simp only [Option.some_bind] at h3
          exact loads_topNodup _ _ h3
      | none =>
        simp only [h3] at h
        exact absurd h (by simp)

/-- A successful attempt returns a validated object with exactly the seven
schema keys. -/
theorem runAttempt_ok_shape (oracle : Nat → ModelResult) (text : String) (now : PyDateTime)
    (attempt : Nat) (j : Json) (h : runAttempt oracle text now attempt = .ok j) :
    ∃ l, j = Json.obj l ∧ (keysOf l).Perm requiredFields := by
  unfold runAttempt at h
  split at h
  · exact absurd h (by simp)
  · exact absurd h (by simp)
  · rename_i raw horacle
    split at h
    · exact absurd h (by simp)
    · simp only [bind, Except.bind] at h
      cases hr : extractJsonFromResponse (pyStrip raw) with
      | error e =>
        simp only [hr] at h
        exact absurd h (by simp)
      | ok j0 =>
        simp only [hr] at h
        cases j0 with
        | obj l0 =>
          unfold validateAny at h
          cases hv : validateAndFix l0 text now with
          | error e =>
            simp only [hv, Except.map] at h
            exact absurd h (by simp)
          | ok outl =>
            simp only [hv, Except.map] at h
            injection h with h'
            have hnod : (keysOf l0).Nodup := extractJsonFromResponse_topNodup _ _ hr
            exact ⟨outl, h'.symm, validateAndFix_keys l0 text now outl hnod hv⟩
        | null => exact absurd h (by simp [validateAny])
        | bool b => exact absurd h (by simp [validateAny])
        | num m e => exact absurd h (by simp [validateAny])
        | str s => exact absurd h (by simp [validateAny])
        | arr es => exact absurd h (by simp [validateAny])

theorem fallbackObj_keys (e : String) :
    keysOf (fallbackObj e) = requiredFields ++ ["error"] := rfl

/-- Every record the attempt loop ever returns is an object carrying either
exactly the seven keys or the seven keys plus the error key. -/
theorem extractAux_shape (oracle : Nat → ModelResult) (text : String) (now : PyDateTime) :
    ∀ remaining attempt r k, extractAux oracle text now attempt remaining = (some r, k) →
      ∃ l, r = Json.obj l ∧
        ((keysOf l).Perm requiredFields ∨ (keysOf l).Perm (requiredFields ++ ["error"])) := by
  intro remaining
  induction remaining with
  | zero =>
    intro attempt r k h
    unfold extractAux at h
    split at h
    · rename_i j0 heqr
      simp only [Prod.mk.injEq, Option.some.injEq] at h
      obtain ⟨h1, _⟩ := h
      subst h1
      obtain ⟨l, hl, hp⟩ := runAttempt_ok_shape oracle text now attempt j0 heqr
      exact ⟨l, hl, Or.inl hp⟩
    · rename_i e0 heqr
      simp only [Prod.mk.injEq, Option.some.injEq] at h
      obtain ⟨h1, _⟩ := h
      subst h1
      exact ⟨fallbackObj e0, rfl, Or.inr (by rw [fallbackObj_keys])⟩
  | succ rem ih =>
    intro attempt r k h
    unfold extractAux at h
    split at h
    · rename_i j0 heqr
      simp only [Prod.mk.injEq, Option.some.injEq] at h
      obtain ⟨h1, _⟩ := h
      subst h1
      obtain ⟨l, hl, hp⟩ := runAttempt_ok_shape oracle text now attempt j0 heqr
      exact ⟨l, hl, Or.inl hp⟩
    · simp only [Prod.mk.injEq] at h
      obtain ⟨h1, _⟩ := h
      exact ih (attempt + 1) r _ (Prod.ext h1 rfl)

/-- The attempt loop never falls through: its result component is always
`some` record. -/
theorem extractAux_fst_isSome (oracle : Nat → ModelResult) (text : String) (now : PyDateTime) :
    ∀ remaining attempt, (extractAux oracle text now attempt remaining).1.isSome = true := by
  intro remaining
  induction remaining with
  | zero =>
    intro attempt
    unfold extractAux
    split <;> rfl
  | succ rem ih =>
    intro attempt
    unfold extractAux
    split
    · rfl
    · simpa using ih (attempt + 1)

/-- C1: schema closure.  Whenever the Validator completes, its record
carries exactly the seven schema keys (as a permutation of the schema
list); every record `extract` returns with a non-negative budget carries
the seven keys or the seven keys plus `error` (the fallback); and every
record the batch runner emits carries those plus the `input_text` key it
appends — no other key is ever added anywhere. -/
theorem claimC1 :
    (∀ data text now out, (keysOf data).Nodup → validateAndFix data text now = .ok out →
      (keysOf out).Perm requiredFields) ∧
    (∀ oracle text now n r k, extractRun oracle text now (Int.ofNat n) = (some r, k) →
      ∃ l, r = Json.obj l ∧
        ((keysOf l).Perm requiredFields ∨ (keysOf l).Perm (requiredFields ++ ["error"]))) ∧
    (∀ oracle texts now r, r ∈ batchExtract oracle texts now →
      ∃ l, r = Json.obj l ∧
        ((keysOf l).Perm (requiredFields ++ ["input_text"]) ∨
         (keysOf l).Perm (requiredFields ++ ["error", "input_text"]))) := by
  refine ⟨?_, ?_, ?_⟩
  · intro data text now out hn h
    exact validateAndFix_keys data text now out hn h
  · intro oracle text now n r k h
    exact extractAux_shape oracle text now n 0 r k h
  · intro oracle texts now r hr
    unfold batchExtract at hr
    obtain ⟨⟨i, t⟩, hmem, heq⟩ := List.mem_map.mp hr
    subst heq
    have hsome := extractAux_fst_isSome (oracle i) t now 2 0
    cases hx : (extractAux (oracle i) t now 0 2).1 with
    | none => rw [hx] at hsome; exact absurd hsome (by simp)
    | some r0 =>
      obtain ⟨l, hl, hperm⟩ := extractAux_shape (oracle i) t now 2 0 r0 _ (Prod.ext hx rfl)
      subst hl
      have hnotin : hasKey l "input_text" = false := by
        cases hkb : hasKey l "input_text" with
        | false => rfl
        | true =>
          exfalso
          have hm := (hasKey_iff_mem_keysOf l "input_text").mp hkb
          rcases hperm with hp | hp
          · exact absurd (hp.mem_iff.mp hm) (by decide)
          · exact absurd (hp.mem_iff.mp hm) (by decide)
      refine ⟨dictInsert l "input_text" (Json.str t), ?_, ?_⟩
      · show attachInput (extractAux (oracle i) t now 0 2).1 t = _
        rw [hx]
        rfl
      · rw [keysOf_dictInsert_of_not_hasKey l _ _ hnotin]
        rcases hperm with hp | hp
        · exact Or.inl (hp.append_right _)
        · refine Or.inr ?_
          have h2 := hp.append_right ["input_text"]
          simpa using h2

theorem claimC1_witness :
    (∃ out, validateAndFix [("material_name", Json.str "brick"), ("extra", Json.bool true)]
        "plain" sampleNow = .ok out ∧ (keysOf out).Perm requiredFields) ∧
    (∃ l, fallbackJson "boom" = Json.obj l ∧
      ((keysOf l).Perm requiredFields ∨ (keysOf l).Perm (requiredFields ++ ["error"]))) ∧
    (∃ r, r ∈ batchExtract (fun _ _ => ModelResult.raise "x") ["hello"] sampleNow ∧
      ∃ l, r = Json.obj l ∧
        ((keysOf l).Perm (requiredFields ++ ["input_text"]) ∨
         (keysOf l).Perm (requiredFields ++ ["error", "input_text"]))) := by
  refine ⟨?_, ?_, ?_⟩
  · exact ⟨_, rfl, claimC1.1 [("material_name", Json.str "brick"), ("extra", Json.bool true)]
      "plain" sampleNow _ (by decide) rfl⟩
  · exact claimC1.2.1 (fun _ => ModelResult.raise "boom") "t" sampleNow 0
      (fallbackJson "boom") 1 rfl
  · have hmem : attachInput (extract (fun _ => ModelResult.raise "x") "hello" sampleNow 2)
        "hello" ∈ batchExtract (fun _ _ => ModelResult.raise "x") ["hello"] sampleNow := by
      have hb : batchExtract (fun _ _ => ModelResult.raise "x") ["hello"] sampleNow =
          [attachInput (extract (fun _ => ModelResult.raise "x") "hello" sampleNow 2)
            "hello"] := rfl
      rw [hb]
      exact List.mem_singleton.mpr rfl
    exact ⟨_, hmem, claimC1.2.2 (fun _ _ => ModelResult.raise "x") ["hello"] sampleNow _ hmem⟩
